import Mathlib

/-!
# Verification development for the `places` text-search client

Shallow embedding of `places.go` (Go) together with the parts of the Go
standard library the client calls (`net/url` query encoding, `strconv.Atoi`,
`strings.Split`), followed by theorems about `createParams`, `createURL`,
`TextSearch` and `request`.

Go strings are byte sequences, so a Go `string` is a list of bytes here.
-/

namespace Places

/-! ## Bytes and strings -/

/-- A Go `byte` (`uint8`). -/
abbrev Byte := Fin 256

/-- A Go `string`: an immutable sequence of bytes. -/
abbrev GoString := List Byte

/-- The byte of an ASCII character literal such as `'a'`. -/
def byteOf (c : Char) : Byte := Fin.ofNat c.toNat

/-- The Go string of an ASCII string literal. -/
def str (s : String) : GoString := s.toList.map byteOf

/-- Go `strings.Cut(s, sep)` for a one-byte separator: the text before the first
`sep`, the text after it, and whether `sep` was found. -/
def Cut (s : GoString) (sep : Byte) : GoString × GoString × Bool :=
  match s with
  | [] => ([], [], false)
  | c :: rest =>
    if c = sep then ([], rest, true)
    else
      let r := Cut rest sep
      (c :: r.1, r.2.1, r.2.2)

/-- Go `strings.Split(s, sep)` for a one-byte separator: the pieces of `s`
between the occurrences of `sep` (always at least one piece). -/
def Split (s : GoString) (sep : Byte) : List GoString :=
  match s with
  | [] => [[]]
  | c :: rest =>
    if c = sep then [] :: Split rest sep
    else
      match Split rest sep with
      | [] => [[c]]
      | p :: ps => (c :: p) :: ps

/-- Go `strings.Contains(s, sep)` for a one-byte `sep`. -/
def Contains (s : GoString) (sep : Byte) : Bool := s.contains sep

/-! ## Errors -/

/-- Go `error` values that occur in the program.  `errorf p e` is
`fmt.Errorf(p + "%v", e)` and `errorfS p s` is `fmt.Errorf(p + "%v", s)` for a
string operand. -/
inductive GoError where
  /-- An error produced outside the modelled code (URL parsing, HTTP transport,
  body reading), identified by its message. -/
  | external (msg : GoString)
  /-- The `url.EscapeError(s)` of a malformed percent escape. -/
  | escapeError (s : GoString)
  /-- The error of `url.ParseQuery` for a `;` in the query. -/
  | semicolon
  /-- The `*strconv.NumError` with `ErrSyntax`. -/
  | numSyntax (fn num : GoString)
  /-- The `*strconv.NumError` with `ErrRange`. -/
  | numRange (fn num : GoString)
  /-- The `fmt.Errorf` of a format ending in `%v` with an error operand. -/
  | errorf (fmt : GoString) (e : GoError)
  /-- The `fmt.Errorf` of a format ending in `%v` with a string operand. -/
  | errorfS (fmt : GoString) (s : GoString)
  deriving DecidableEq, Repr

/-- The message `err.Error()`.  `strconv.Quote`, which two library errors use to
print their operand, is taken as a parameter. -/
def GoError.Error (quote : GoString → GoString) : GoError → GoString
  | .external msg => msg
  | .escapeError s => str "invalid URL escape " ++ quote s
  | .semicolon => str "invalid semicolon separator in query"
  | .numSyntax fn num =>
    str "strconv." ++ fn ++ str ": parsing " ++ quote num ++ str ": invalid syntax"
  | .numRange fn num =>
    str "strconv." ++ fn ++ str ": parsing " ++ quote num ++ str ": value out of range"
  | .errorf fmt e => fmt ++ e.Error quote
  | .errorfS fmt s => fmt ++ s

/-! ## `net/url`: query escaping -/

/-- Go `url.shouldEscape(c, encodeQueryComponent)`: everything is escaped except
the unreserved characters `a-z A-Z 0-9 - _ . ~`. -/
def shouldEscape (c : Byte) : Bool :=
  if (byteOf 'a' ≤ c ∧ c ≤ byteOf 'z') ∨ (byteOf 'A' ≤ c ∧ c ≤ byteOf 'Z')
      ∨ (byteOf '0' ≤ c ∧ c ≤ byteOf '9') then false
  else if c = byteOf '-' ∨ c = byteOf '_' ∨ c = byteOf '.' ∨ c = byteOf '~' then false
  else true

/-- Go `upperhex[n]`, the table `"0123456789ABCDEF"`. -/
def upperhex (n : Nat) : Byte := (str "0123456789ABCDEF").getD n 0

/-- Go `url.QueryEscape(s)`, that is `escape(s, encodeQueryComponent)`: a space
becomes `+`, every other byte that `shouldEscape` becomes `%XX`. -/
def QueryEscape : GoString → GoString
  | [] => []
  | c :: s =>
    if c = byteOf ' ' then byteOf '+' :: QueryEscape s
    else if shouldEscape c then
      byteOf '%' :: upperhex (c.val >>> 4) :: upperhex (c.val &&& 15) :: QueryEscape s
    else c :: QueryEscape s

/-- Go `url.ishex`. -/
def ishex (c : Byte) : Bool :=
  (byteOf '0' ≤ c ∧ c ≤ byteOf '9') ∨ (byteOf 'a' ≤ c ∧ c ≤ byteOf 'f')
    ∨ (byteOf 'A' ≤ c ∧ c ≤ byteOf 'F')

/-- Go `url.unhex` (the value of a hexadecimal digit; never called on another
byte). -/
def unhex (c : Byte) : Nat :=
  if byteOf '0' ≤ c ∧ c ≤ byteOf '9' then c.val - 48
  else if byteOf 'a' ≤ c ∧ c ≤ byteOf 'f' then c.val - 97 + 10
  else if byteOf 'A' ≤ c ∧ c ≤ byteOf 'F' then c.val - 65 + 10
  else 0

/-- Go `url.QueryUnescape(s)`, that is `unescape(s, encodeQueryComponent)`: the
first malformed `%` escape is reported with at most three bytes of context,
otherwise `%XX` becomes the byte `XX` and `+` becomes a space. -/
def QueryUnescape : GoString → Except GoError GoString
  | [] => .ok []
  | c :: s =>
    if c = byteOf '%' then
      match s with
      | h1 :: h2 :: rest =>
        if ishex h1 && ishex h2 then
          match QueryUnescape rest with
          | .ok t => .ok (Fin.ofNat ((unhex h1 <<< 4) ||| unhex h2) :: t)
          | .error e => .error e
        else .error (.escapeError [c, h1, h2])
      | _ => .error (.escapeError (c :: s))
    else
      match QueryUnescape s with
      | .ok t => .ok ((if c = byteOf '+' then byteOf ' ' else c) :: t)
      | .error e => .error e

/-! ## `net/url`: `Values` -/

/-- Go `url.Values`, a `map[string][]string`.  The map is kept as an association
list ordered by key, each key at most once; a Go map has no order of its own. -/
abbrev Values := List (GoString × List GoString)

/-- Replace the slice stored under `key` by `f` of it (`f []` when the key is
absent). -/
def Values.update (key : GoString) (f : List GoString → List GoString) : Values → Values
  | [] => [(key, f [])]
  | (k, vs) :: rest =>
    if key = k then (k, f vs) :: rest
    else if key < k then (key, f []) :: (k, vs) :: rest
    else (k, vs) :: Values.update key f rest

/-- The slice stored under `key`, if any: Go `v[key]`. -/
def Values.lookup (v : Values) (key : GoString) : Option (List GoString) :=
  match v with
  | [] => none
  | (k, vs) :: rest => if key = k then some vs else Values.lookup rest key

/-- Go `v.Set(key, value)`: `v[key] = []string{value}`. -/
def Values.Set (v : Values) (key value : GoString) : Values :=
  v.update key (fun _ => [value])

/-- Go `v.Add(key, value)`: `v[key] = append(v[key], value)`. -/
def Values.Add (v : Values) (key value : GoString) : Values :=
  v.update key (fun vs => vs ++ [value])

/-- One step of the inner loop of `Values.Encode`: write `&` unless the buffer
is empty, then `keyEscaped=QueryEscape(value)`. -/
def encodeWrite (keyEscaped : GoString) (buf : GoString) (value : GoString) : GoString :=
  (if buf.length > 0 then buf ++ [byteOf '&'] else buf)
    ++ keyEscaped ++ [byteOf '='] ++ QueryEscape value

/-- Go `v.Encode()`: the keys are sorted, and for every key in that order every
value is written as `key=value`, both escaped, with `&` between the pairs. -/
def Values.Encode (v : Values) : GoString :=
  let keys := (v.map Prod.fst).insertionSort (· ≤ ·)
  keys.foldl
    (fun buf k => ((v.lookup k).getD []).foldl (encodeWrite (QueryEscape k)) buf) []

/-- The body of the loop of Go `url.parseQuery` for one `&`-separated piece. -/
def parseQueryStep (st : Values × Option GoError) (piece : GoString) :
    Values × Option GoError :=
  if Contains piece (byteOf ';') then (st.1, some .semicolon)
  else if piece = [] then st
  else
    let kv := Cut piece (byteOf '=')
    match QueryUnescape kv.1 with
    | .error e1 => (st.1, if st.2.isNone then some e1 else st.2)
    | .ok key =>
      match QueryUnescape kv.2.1 with
      | .error e1 => (st.1, if st.2.isNone then some e1 else st.2)
      | .ok value => (st.1.Add key value, st.2)

/-- Go `url.ParseQuery(query)`: the values parsed and the first decoding error,
if any.  The Go loop cuts `query` at each `&` until nothing is left, so it
visits the pieces of `Split query '&'` in order (the single empty piece of an
empty query is skipped like any empty piece). -/
def ParseQuery (query : GoString) : Values × Option GoError :=
  (Split query (byteOf '&')).foldl parseQueryStep ([], none)

/-! ## `strconv.Atoi` -/

/-- Go `strconv.IntSize` on the 64-bit platforms the client is built for. -/
def intSize : Nat := 64

/-- The conversion `int64(x)`: the value of `x` wrapped into 64 signed bits. -/
def toInt64 (x : Int) : Int := (x + 2 ^ 63) % 2 ^ 64 - 2 ^ 63

/-- Go `strconv.lower(c)`, that is `c | ('x' - 'X')`. -/
def lower (c : Byte) : Byte := Fin.ofNat (c.val ||| 32)

/-- The digit loop of Go `strconv.ParseUint(s, 10, 64)` from the accumulator
`n`: `none` is a syntax error, `some none` a range error, `some (some n)` the
parsed `uint64`.  `cutoff` is `maxUint64/10 + 1` and `maxVal` is `1<<64 - 1`. -/
def parseUintLoop (n : Nat) : GoString → Option (Option Nat)
  | [] => some (some n)
  | c :: s =>
    let d : Option Byte :=
      if byteOf '0' ≤ c ∧ c ≤ byteOf '9' then some (c - byteOf '0')
      else if byteOf 'a' ≤ lower c ∧ lower c ≤ byteOf 'z' then
        some (lower c - byteOf 'a' + 10)
      else none
    match d with
    | none => none
    | some d =>
      if d.val ≥ 10 then none
      else if n ≥ (2 ^ 64 - 1) / 10 + 1 then some none
      else
        let n10 := n * 10
        let n1 := (n10 + d.val) % 2 ^ 64
        if n1 < n10 ∨ n1 > 2 ^ 64 - 1 then some none
        else parseUintLoop n1 s

/-- Go `strconv.ParseUint(s, 10, 64)`. -/
def ParseUint (s : GoString) : Option (Option Nat) :=
  if s = [] then none else parseUintLoop 0 s

/-- Go `strconv.ParseInt(s, 10, 0)` as `Atoi` calls it, with the error already
attributed to `Atoi`: an optional sign, then `ParseUint`, then the range check
against `cutoff = 1 << 63`. -/
def ParseInt (s0 : GoString) : Except GoError Int :=
  match s0 with
  | [] => .error (.numSyntax (str "Atoi") s0)
  | c :: rest =>
    let neg := c = byteOf '-'
    let s := if c = byteOf '+' then rest else if c = byteOf '-' then rest else s0
    match ParseUint s with
    | none => .error (.numSyntax (str "Atoi") s0)
    | some r =>
      let un := r.getD (2 ^ 64 - 1)
      let cutoff := 2 ^ (intSize - 1)
      if ¬ neg ∧ un ≥ cutoff then .error (.numRange (str "Atoi") s0)
      else if neg ∧ un > cutoff then .error (.numRange (str "Atoi") s0)
      else
        let n := toInt64 un
        .ok (if neg then toInt64 (-n) else n)

/-- The digit loop of the fast path of `strconv.Atoi`: `ch -= '0'` in byte
arithmetic, a syntax error when `ch > 9`, else `n = n*10 + int(ch)`.  At most 18
digits are read, so `n` stays below `10^18` and the `int` never wraps. -/
def atoiFastLoop (n : Int) : GoString → Option Int
  | [] => some n
  | ch :: s =>
    let ch := ch - byteOf '0'
    if ch.val > 9 then none else atoiFastLoop (n * 10 + ch.val) s

/-- Go `strconv.Atoi(s)` with a 64-bit `int`: the parsed value when the error is
`nil`, the error otherwise (the program reads the value only when the error is
`nil`).  Strings of 1 to 18 bytes take the fast path, all other strings go
through `ParseInt(s, 10, 0)`. -/
def Atoi (s0 : GoString) : Except GoError Int :=
  let sLen := s0.length
  if 0 < sLen ∧ sLen < 19 then
    match s0 with
    | [] => .error (.numSyntax (str "Atoi") s0)
    | c :: rest =>
      let signed := c = byteOf '-' ∨ c = byteOf '+'
      let s := if signed then rest else s0
      if signed ∧ s.length < 1 then .error (.numSyntax (str "Atoi") s0)
      else
        match atoiFastLoop 0 s with
        | none => .error (.numSyntax (str "Atoi") s0)
        | some n => .ok (if c = byteOf '-' then -n else n)
  else ParseInt s0

/-! ## The client: query construction -/

/-- Go `url.URL` as far as the client uses it.  The client reads and writes
`RawQuery`; everything else goes untouched from `url.Parse` to `String()`, so it
is kept as the text `String()` prints before the query (`beforeQuery`: scheme,
host and path) and after it (`afterQuery`: the fragment), with `ForceQuery`. -/
structure URL where
  beforeQuery : GoString
  RawQuery : GoString
  ForceQuery : Bool
  afterQuery : GoString
  deriving DecidableEq, Repr

/-- Go `u.Query()`: `ParseQuery(u.RawQuery)` with the error dropped. -/
def URL.Query (u : URL) : Values := (ParseQuery u.RawQuery).1

/-- Go `u.String()`: a `?` and the raw query follow the path when `ForceQuery`
is set or the raw query is not empty. -/
def URL.String (u : URL) : GoString :=
  u.beforeQuery
    ++ (if u.ForceQuery ∨ u.RawQuery ≠ [] then byteOf '?' :: u.RawQuery else [])
    ++ u.afterQuery

/-- The Go struct `Client`. -/
structure Client where
  key : GoString
  deriving DecidableEq, Repr

/-- Go `NewClient(key)`. -/
def NewClient (key : GoString) : Client := { key := key }

/-- The Go struct `OptionalParams`; the zero value has every string empty and
`Opennow` false.  The Go field `Type` is `Type_` here. -/
structure OptionalParams where
  Language : GoString := []
  Location : GoString := []
  Maxprice : GoString := []
  Minprice : GoString := []
  Opennow : Bool := false
  Pagetoken : GoString := []
  Radius : GoString := []
  Region : GoString := []
  Type_ : GoString := []
  deriving DecidableEq, Repr

/-- The Go constant `textSearchURL`. -/
def textSearchURL : GoString :=
  str "https://maps.googleapis.com/maps/api/place/textsearch/json"

/-- Go `(*Client).createParams(u, params)`. -/
def Client.createParams (c : Client) (u : URL) (params : OptionalParams) : GoString :=
  let q := u.Query
  let q := q.Set (str "key") c.key
  if params.Pagetoken ≠ [] then
    let q := q.Set (str "pagetoken") params.Pagetoken
    q.Encode
  else
    let q := if params.Language ≠ [] then q.Set (str "language") params.Language else q
    let q := if params.Region ≠ [] then q.Set (str "region") params.Region else q
    let q :=
      if params.Location ≠ [] then
        let loc := Split params.Location (byteOf ',')
        if loc.length = 2 then q.Set (str "location") params.Location else q
      else q
    let q :=
      if params.Maxprice ≠ [] then
        match Atoi params.Maxprice with
        | .ok maxp => if 0 ≤ maxp ∧ maxp ≤ 4 then q.Set (str "maxprice") params.Maxprice else q
        | .error _ => q
      else q
    let q :=
      if params.Minprice ≠ [] then
        match Atoi params.Minprice with
        | .ok minp => if 0 ≤ minp ∧ minp ≤ 4 then q.Set (str "minprice") params.Minprice else q
        | .error _ => q
      else q
    let q :=
      if params.Minprice ≠ [] then
        match Atoi params.Minprice with
        | .ok minp => if 0 ≤ minp ∧ minp ≤ 4 then q.Set (str "minprice") params.Minprice else q
        | .error _ => q
      else q
    let q := if params.Opennow then q.Set (str "opennow") (str "true") else q
    let q :=
      if params.Radius ≠ [] then
        match Atoi params.Radius with
        | .ok _ => q.Set (str "radius") params.Radius
        | .error _ => q
      else q
    let q := if params.Type_ ≠ [] then q.Set (str "type") params.Type_ else q
    q.Encode

/-- Go `(*Client).createURL(baseURL, params)`; `parse` is `url.Parse`. -/
def Client.createURL (parse : GoString → Except GoError URL) (c : Client)
    (baseURL : GoString) (params : OptionalParams) : Except GoError URL :=
  match parse baseURL with
  | .error err => .error err
  | .ok u => .ok { u with RawQuery := c.createParams u params }

/-! ## `encoding/json`: decoding into the result structs -/

/-- A JSON value as the scanner of `encoding/json` delivers it: object members
in the order of the text (a name may repeat), strings unquoted, numbers as the
literal text. -/
inductive JSON where
  | null
  | bool (b : Bool)
  | number (lit : GoString)
  | string (s : GoString)
  | array (elems : List JSON)
  | object (members : List (GoString × JSON))

/-- Go `float64`. -/
abbrev Float64 := Float

/-- The Go struct `PlusCode`. -/
structure PlusCode where
  CompoundCode : GoString := []
  GlobalCode : GoString := []

/-- The Go struct `Photo`; a slice is `none` when it is `nil`. -/
structure Photo where
  Height : Int := 0
  HtmlAttributions : Option (List GoString) := none
  PhotoReference : GoString := []
  Width : Int := 0

/-- The Go struct `OpeningHours`. -/
structure OpeningHours where
  OpenNow : Bool := false

/-- The Go struct `Location`. -/
structure Location where
  Lat : Float64 := 0
  Lng : Float64 := 0

/-- The Go struct `Geometry`. -/
structure Geometry where
  Location : Location := {}

/-- The Go struct `Place`; a slice is `none` when it is `nil`. -/
structure Place where
  FormattedAddress : GoString := []
  Icon : GoString := []
  IconBackgroundColor : GoString := []
  IconMaskBaseUri : GoString := []
  Name : GoString := []
  PlaceID : GoString := []
  PlusCode : PlusCode := {}
  PriceLevel : Int := 0
  Rating : Float64 := 0
  Reference : GoString := []
  Types : Option (List GoString) := none
  UserRatingsTotal : Int := 0
  BusinessStatus : GoString := []
  Geometry : Geometry := {}
  Photos : Option (List Photo) := none
  OpeningHours : OpeningHours := {}

/-- The Go struct `PlaceResult`; a slice is `none` when it is `nil`. -/
structure PlaceResult where
  HtmlAttributions : Option (List GoString) := none
  Status : GoString := []
  Results : Option (List Place) := none

/-- The loop of Go `json.foldName`; `skip` counts the bytes of the current rune
that are still to be passed over.  See `foldName`. -/
def foldNameFrom : Nat → GoString → GoString
  | _, [] => []
  | skip + 1, _ :: s => foldNameFrom skip s
  | 0, c :: s =>
    if c.val < 128 then
      (if byteOf 'a' ≤ c ∧ c ≤ byteOf 'z' then c - 32 else c) :: foldNameFrom 0 s
    else if c = 197 ∧ s.take 1 = [191] then byteOf 'S' :: foldNameFrom 1 s
    else if c = 226 ∧ s.take 2 = [132, 170] then byteOf 'K' :: foldNameFrom 2 s
    else c :: foldNameFrom 0 s

/-- Go `json.foldName`, the key under which a struct field is found when no
field has exactly the name of the JSON member: ASCII letters are upper-cased,
and the two non-ASCII runes whose case folding is an ASCII letter, U+017F
(bytes `C5 BF`) and U+212A (bytes `E2 84 AA`), become `S` and `K`.  Every other
non-ASCII rune folds to a non-ASCII rune; its bytes are left as they are, which
decides the comparison with the folded ASCII field names in the same way. -/
def foldName (name : GoString) : GoString := foldNameFrom 0 name

/-- The struct field a JSON member name selects, by position among the fields'
JSON names: the field with exactly that name, else the first field with the
same folded name, else none (the member is skipped). -/
def fieldIndex (names : List GoString) (key : GoString) : Option Nat :=
  match names.indexOf? key with
  | some i => some i
  | none => (names.map foldName).indexOf? (foldName key)

/-- Decoding into a Go `string`: a JSON string is stored; `null` and values of
another kind (a type error, which `request` drops) leave it unchanged. -/
def decodeString (cur : GoString) : JSON → GoString
  | .string s => s
  | _ => cur

/-- Decoding into a Go `bool`. -/
def decodeBool (cur : Bool) : JSON → Bool
  | .bool b => b
  | _ => cur

/-- Decoding into a Go `int64`: a number literal that `strconv.ParseInt(lit, 10,
64)` accepts is stored, everything else leaves the field unchanged. -/
def decodeInt64 (cur : Int) : JSON → Int
  | .number lit =>
    match ParseInt lit with
    | .ok n => n
    | .error _ => cur
  | _ => cur

/-- Decoding into a Go `float64`; `parseFloat` is `strconv.ParseFloat(lit, 64)`,
`none` when it reports an error. -/
def decodeFloat64 (parseFloat : GoString → Option Float64) (cur : Float64) : JSON → Float64
  | .number lit =>
    match parseFloat lit with
    | some x => x
    | none => cur
  | _ => cur

/-- Decoding into a Go slice: an array gives a non-nil slice of its decoded
elements, `null` gives the nil slice, another kind leaves the slice unchanged.
Every element is decoded from the zero value. -/
def decodeSlice {α : Type} (elem : JSON → α) (cur : Option (List α)) : JSON → Option (List α)
  | .array elems => some (elems.map elem)
  | .null => none
  | _ => cur

/-- Decoding into a Go struct with the given JSON field names: the members of an
object are visited in order, each one decoded by `field i` into the field it
selects; `null` and values of another kind leave the struct unchanged. -/
def decodeStruct {α : Type} (names : List GoString) (field : Nat → α → JSON → α)
    (cur : α) : JSON → α
  | .object members =>
    members.foldl
      (fun acc m =>
        match fieldIndex names m.1 with
        | some i => field i acc m.2
        | none => acc)
      cur
  | _ => cur

/-- Decoding into a `PlusCode`. -/
def decodePlusCode : PlusCode → JSON → PlusCode :=
  decodeStruct [str "compound_code", str "global_code"] fun i p v =>
    match i with
    | 0 => { p with CompoundCode := decodeString p.CompoundCode v }
    | 1 => { p with GlobalCode := decodeString p.GlobalCode v }
    | _ => p

/-- Decoding into a `Photo`. -/
def decodePhoto : Photo → JSON → Photo :=
  decodeStruct [str "height", str "html_attributions", str "photo_reference", str "width"]
    fun i p v =>
      match i with
      | 0 => { p with Height := decodeInt64 p.Height v }
      | 1 => { p with HtmlAttributions := decodeSlice (decodeString []) p.HtmlAttributions v }
      | 2 => { p with PhotoReference := decodeString p.PhotoReference v }
      | 3 => { p with Width := decodeInt64 p.Width v }
      | _ => p

/-- Decoding into an `OpeningHours`; the field `OpenNow` has no tag, so its JSON
name is the Go name. -/
def decodeOpeningHours : OpeningHours → JSON → OpeningHours :=
  decodeStruct [str "OpenNow"] fun i p v =>
    match i with
    | 0 => { p with OpenNow := decodeBool p.OpenNow v }
    | _ => p

/-- Decoding into a `Location`. -/
def decodeLocation (parseFloat : GoString → Option Float64) : Location → JSON → Location :=
  decodeStruct [str "lat", str "lng"] fun i p v =>
    match i with
    | 0 => { p with Lat := decodeFloat64 parseFloat p.Lat v }
    | 1 => { p with Lng := decodeFloat64 parseFloat p.Lng v }
    | _ => p

/-- Decoding into a `Geometry`; the field `Location` has no tag. -/
def decodeGeometry (parseFloat : GoString → Option Float64) : Geometry → JSON → Geometry :=
  decodeStruct [str "Location"] fun i p v =>
    match i with
    | 0 => { p with Location := decodeLocation parseFloat p.Location v }
    | _ => p

/-- The JSON names of the fields of `Place`, in the order of the struct: the
tag where there is one, the Go name for `Geometry`, `Photos`, `OpeningHours`. -/
def placeFieldNames : List GoString :=
  [str "formatted_address", str "icon", str "icon_background_color",
   str "icon_mask_base_uri", str "name", str "place_id", str "plus_code",
   str "price_level", str "rating", str "reference", str "types",
   str "user_ratings_total", str "business_status", str "Geometry", str "Photos",
   str "OpeningHours"]

/-- Decoding into a `Place`. -/
def decodePlace (parseFloat : GoString → Option Float64) : Place → JSON → Place :=
  decodeStruct placeFieldNames fun i p v =>
    match i with
    | 0 => { p with FormattedAddress := decodeString p.FormattedAddress v }
    | 1 => { p with Icon := decodeString p.Icon v }
    | 2 => { p with IconBackgroundColor := decodeString p.IconBackgroundColor v }
    | 3 => { p with IconMaskBaseUri := decodeString p.IconMaskBaseUri v }
    | 4 => { p with Name := decodeString p.Name v }
    | 5 => { p with PlaceID := decodeString p.PlaceID v }
    | 6 => { p with PlusCode := decodePlusCode p.PlusCode v }
    | 7 => { p with PriceLevel := decodeInt64 p.PriceLevel v }
    | 8 => { p with Rating := decodeFloat64 parseFloat p.Rating v }
    | 9 => { p with Reference := decodeString p.Reference v }
    | 10 => { p with Types := decodeSlice (decodeString []) p.Types v }
    | 11 => { p with UserRatingsTotal := decodeInt64 p.UserRatingsTotal v }
    | 12 => { p with BusinessStatus := decodeString p.BusinessStatus v }
    | 13 => { p with Geometry := decodeGeometry parseFloat p.Geometry v }
    | 14 => { p with Photos := decodeSlice (decodePhoto {}) p.Photos v }
    | 15 => { p with OpeningHours := decodeOpeningHours p.OpeningHours v }
    | _ => p

/-- Decoding into a `PlaceResult`. -/
def decodePlaceResult (parseFloat : GoString → Option Float64) :
    PlaceResult → JSON → PlaceResult :=
  decodeStruct [str "html_attributions", str "status", str "results"] fun i p v =>
    match i with
    | 0 => { p with HtmlAttributions := decodeSlice (decodeString []) p.HtmlAttributions v }
    | 1 => { p with Status := decodeString p.Status v }
    | 2 => { p with Results := decodeSlice (decodePlace parseFloat {}) p.Results v }
    | _ => p

/-- Go `json.Unmarshal(data, &response)` for `response *PlaceResult`, returning
the pointer afterwards (`none` is `nil`); the error it reports is dropped by the
caller.  `scan` is the syntax check and scanner of `encoding/json` (`none` for
text that is not valid JSON, in which case nothing is stored).  The literal
`null` sets the pointer to `nil`; any other value is decoded into the struct the
pointer refers to, a new zero struct when the pointer is `nil`. -/
def Unmarshal (scan : GoString → Option JSON) (parseFloat : GoString → Option Float64)
    (data : GoString) (response : Option PlaceResult) : Option PlaceResult :=
  match scan data with
  | none => response
  | some .null => none
  | some j => some (decodePlaceResult parseFloat (response.getD {}) j)

/-! ## The client: the HTTP round trip -/

/-- The `*http.Request` that `http.NewRequest(method, url, nil)` builds. -/
structure Request where
  Method : GoString
  URL : GoString
  deriving DecidableEq, Repr

/-- The `*http.Response` of a completed round trip, as far as `request` reads
it; `Body` is what `io.ReadAll(resp.Body)` returns. -/
structure Response where
  StatusCode : Int
  Status : GoString
  Body : Except GoError GoString

/-- The library and the network the client runs against. -/
structure Env where
  /-- Go `url.Parse`. -/
  Parse : GoString → Except GoError URL
  /-- The error of `http.NewRequest(method, url, nil)`, if any. -/
  NewRequest : GoString → GoString → Option GoError
  /-- Go `client.Do(req)` for the client with the 30 second timeout: the one
  place where the network is used. -/
  Do : Request → Except GoError Response
  /-- The syntax check and scanner of `encoding/json`. -/
  scan : GoString → Option JSON
  /-- Go `strconv.ParseFloat(lit, 64)`, `none` for an error. -/
  ParseFloat : GoString → Option Float64

/-- A result together with the requests that were handed to `client.Do` to
obtain it, in order. -/
structure Traced (α : Type) where
  value : α
  calls : List Request

/-- Go `request(url, response)`.  The `interface{}` it returns with a `nil`
error holds the pointer `response` after `json.Unmarshal`; that pointer can be
`nil` (`none`). -/
def request (env : Env) (url : GoString) (response : Option PlaceResult) :
    Traced (Except GoError (Option PlaceResult)) :=
  match env.NewRequest (str "GET") url with
  | some err => ⟨.error err, []⟩
  | none =>
    let req : Request := { Method := str "GET", URL := url }
    match env.Do req with
    | .error err => ⟨.error err, [req]⟩
    | .ok resp =>
      if resp.StatusCode ≠ 200 then
        ⟨.error (.errorfS (str "http status error. status is ") resp.Status), [req]⟩
      else
        match resp.Body with
        | .error err => ⟨.error err, [req]⟩
        | .ok body => ⟨.ok (Unmarshal env.scan env.ParseFloat body response), [req]⟩

/-- Go `(*Client).TextSearch(ctx, query, params)`: the pair `(*PlaceResult,
error)` it returns, with the requests issued.  `ctx` is not used by the code. -/
def Client.TextSearch {Ctx : Type} (env : Env) (c : Client) (_ctx : Ctx) (query : GoString)
    (params : OptionalParams) : Traced (Option PlaceResult × Option GoError) :=
  if query = [] then
    ⟨(none, some (.errorfS (str "query is required. ") query)), []⟩
  else
    match c.createURL env.Parse textSearchURL params with
    | .error err => ⟨(none, some (.errorf (str "faild to create url. ") err)), []⟩
    | .ok u =>
      match ParseQuery u.RawQuery with
      | (_, some err) => ⟨(none, some (.errorf (str "parse query error. ") err)), []⟩
      | (q, none) =>
        let q := q.Add (str "query") query
        let u := { u with RawQuery := q.Encode }
        let body : PlaceResult := {}
        let r := request env u.String (some body)
        match r.value with
        | .error err => ⟨(none, some err), r.calls⟩
        | .ok placeResult => ⟨(placeResult, none), r.calls⟩

/-! ## Vocabulary of the statements -/

/-- The bytes that separate the pieces of a query string. -/
def isSeparator (b : Byte) : Bool := b = byteOf '&' ∨ b = byteOf '=' ∨ b = byteOf ';'

/-- How `QueryEscape` writes one byte, case by case, with what `QueryUnescape`
needs to read it back. -/
def escapeCases (c : Byte) : Bool :=
  if c = byteOf ' ' then QueryEscape [c] == [byteOf '+']
  else if shouldEscape c then
    QueryEscape [c] == [byteOf '%', upperhex (c.val >>> 4), upperhex (c.val &&& 15)]
      && ishex (upperhex (c.val >>> 4)) && ishex (upperhex (c.val &&& 15))
      && ((Fin.ofNat ((unhex (upperhex (c.val >>> 4)) <<< 4)
            ||| unhex (upperhex (c.val &&& 15))) : Byte) == c)
  else QueryEscape [c] == [c] && c != byteOf '%' && c != byteOf '+'

/-- The key/value pairs of `v`, keys in the order of the list, the values of a
key in the order of its slice. -/
def Values.pairs : Values → List (GoString × GoString)
  | [] => []
  | (k, vs) :: rest => vs.map (fun x => (k, x)) ++ Values.pairs rest

/-- The text `Values.Encode` writes for one pair. -/
def encodePair (p : GoString × GoString) : GoString :=
  QueryEscape p.1 ++ byteOf '=' :: QueryEscape p.2

/-- The pairs joined with `&`. -/
def joinPairs : List (GoString × GoString) → GoString
  | [] => []
  | p :: ps => encodePair p ++ (ps.map (fun p => byteOf '&' :: encodePair p)).flatten

/-- The invariant of a `Values` built by `Set` and `Add`: keys strictly
ascending and no key with an empty slice. -/
def Values.WF (v : Values) : Prop :=
  (v.map Prod.fst).Sorted (· < ·) ∧ ∀ e ∈ v, e.2 ≠ []

/-- The test `createParams` applies to `Maxprice` and to `Minprice`: not empty,
accepted by `Atoi`, and the value within 0 to 4. -/
def priceAccepted (s : GoString) : Bool :=
  !s.isEmpty &&
    match Atoi s with
    | .ok n => decide (0 ≤ n ∧ n ≤ 4)
    | .error _ => false

/-- The test `createParams` applies to `Radius`: not empty and accepted by
`Atoi`. -/
def radiusAccepted (s : GoString) : Bool :=
  !s.isEmpty &&
    match Atoi s with
    | .ok _ => true
    | .error _ => false

/-- The test `createParams` applies to `Location`: not empty and split by `,`
into two parts. -/
def locationAccepted (s : GoString) : Bool :=
  !s.isEmpty && decide ((Split s (byteOf ',')).length = 2)

/-- Set `name` to `value` when `cond` holds. -/
def setIf (cond : Bool) (name value : GoString) (q : Values) : Values :=
  if cond then q.Set name value else q

/-- The parameters `createParams` has set when it encodes them, for a URL
without a query of its own. -/
def paramValues (key : GoString) (p : OptionalParams) : Values :=
  if p.Pagetoken ≠ [] then
    (Values.Set [] (str "key") key).Set (str "pagetoken") p.Pagetoken
  else
    Values.Set [] (str "key") key
      |> setIf (!p.Language.isEmpty) (str "language") p.Language
      |> setIf (!p.Region.isEmpty) (str "region") p.Region
      |> setIf (locationAccepted p.Location) (str "location") p.Location
      |> setIf (priceAccepted p.Maxprice) (str "maxprice") p.Maxprice
      |> setIf (priceAccepted p.Minprice) (str "minprice") p.Minprice
      |> setIf p.Opennow (str "opennow") (str "true")
      |> setIf (radiusAccepted p.Radius) (str "radius") p.Radius
      |> setIf (!p.Type_.isEmpty) (str "type") p.Type_

/-- A decimal digit `0` to `9`. -/
def isDigit (c : Byte) : Bool := byteOf '0' ≤ c ∧ c ≤ byteOf '9'

/-- The number written by the decimal digits of `s` after the digits that gave
`n`. -/
def digitsFrom (n : Nat) : GoString → Nat
  | [] => n
  | c :: s => digitsFrom (n * 10 + (c.val - 48)) s

/-- One or more decimal digits. -/
def isDigits (s : GoString) : Bool := !s.isEmpty && s.all isDigit

/-- An integer literal: an optional sign `+` or `-`, then one or more decimal
digits. -/
def isIntegerLiteral : GoString → Bool
  | [] => false
  | c :: rest =>
    if c = byteOf '+' ∨ c = byteOf '-' then isDigits rest else isDigits (c :: rest)

/-- The integer an integer literal denotes. -/
def literalValue : GoString → Int
  | [] => 0
  | c :: rest =>
    if c = byteOf '-' then -(digitsFrom 0 rest : Int)
    else if c = byteOf '+' then (digitsFrom 0 rest : Int)
    else (digitsFrom 0 (c :: rest) : Int)

/-- What the digit tests of `Atoi` and `ParseUint` do with the byte `c`. -/
def digitCases (c : Byte) : Bool :=
  if isDigit c then
    decide ((byteOf '0' ≤ c ∧ c ≤ byteOf '9') ∧ (c - byteOf '0').val = c.val - 48
      ∧ c.val - 48 ≤ 9)
  else
    decide (¬ (byteOf '0' ≤ c ∧ c ≤ byteOf '9') ∧ (c - byteOf '0').val > 9
      ∧ ((byteOf 'a' ≤ lower c ∧ lower c ≤ byteOf 'z') → (lower c - byteOf 'a' + 10).val ≥ 10))

/-- The names of the parameters of a query string, in the order of the text:
the part before `=` of every piece between `&`. -/
def paramNames (query : GoString) : List GoString :=
  (Split query (byteOf '&')).map (fun piece => (Cut piece (byteOf '=')).1)

/-- The query string of the request `TextSearch` builds: the parameters of
`createParams`, parsed, with `query` added, encoded again. -/
def Client.requestQuery (c : Client) (u : URL) (query : GoString) (params : OptionalParams) :
    GoString :=
  ((ParseQuery (c.createParams u params)).1.Add (str "query") query).Encode

/-- The URL of the request `TextSearch` builds. -/
def Client.requestURL (c : Client) (u : URL) (query : GoString) (params : OptionalParams) :
    GoString :=
  URL.String { u with RawQuery := c.requestQuery u query params }

/-- The `url.URL` that `url.Parse` returns for `textSearchURL`: no query, no
fragment. -/
def textSearchParsed : URL :=
  { beforeQuery := textSearchURL, RawQuery := [], ForceQuery := false, afterQuery := [] }

/-- An environment in the manner of the repository's test: `textSearchURL`
parses, every request is answered with `resp`, the body scans to `json`. -/
def mockEnv (resp : Response) (json : Option JSON) : Env :=
  { Parse := fun s =>
      if s = textSearchURL then .ok textSearchParsed
      else .error (.external (str "parse error"))
    NewRequest := fun _ _ => none
    Do := fun _ => .ok resp
    scan := fun _ => json
    ParseFloat := fun _ => none }

/-- The JSON value `{"status":"OK","results":[{"name":"beer factory",<hours>:
{<open>: b}}]}`, with the two member names of the opening hours given. -/
def placeWithHours (hours open_ : GoString) (b : Bool) : JSON :=
  .object
    [(str "status", .string (str "OK")),
     (str "results",
      .array [.object [(str "name", .string (str "beer factory")),
                       (hours, .object [(open_, .bool b)])]])]

/-- The `OpenNow` flags of the places of a result of `TextSearch`. -/
def openNowFlags (r : Option PlaceResult × Option GoError) : Option (List Bool) :=
  match r.1 with
  | none => none
  | some pr =>
    match pr.Results with
    | none => none
    | some places => some (places.map fun p => p.OpeningHours.OpenNow)

/-- The names of the parameters `createParams` can set. -/
def optionNames : List GoString :=
  [str "key", str "language", str "location", str "maxprice", str "minprice",
   str "opennow", str "pagetoken", str "radius", str "region", str "type"]

/-- The variant of `createParams` with the second, repeated `Minprice` block
removed: `Minprice` is validated once. -/
def Client.createParamsSingle (c : Client) (u : URL) (params : OptionalParams) : GoString :=
  let q := u.Query
  let q := q.Set (str "key") c.key
  if params.Pagetoken ≠ [] then
    let q := q.Set (str "pagetoken") params.Pagetoken
    q.Encode
  else
    let q := if params.Language ≠ [] then q.Set (str "language") params.Language else q
    let q := if params.Region ≠ [] then q.Set (str "region") params.Region else q
    let q :=
      if params.Location ≠ [] then
        let loc := Split params.Location (byteOf ',')
        if loc.length = 2 then q.Set (str "location") params.Location else q
      else q
    let q :=
      if params.Maxprice ≠ [] then
        match Atoi params.Maxprice with
        | .ok maxp => if 0 ≤ maxp ∧ maxp ≤ 4 then q.Set (str "maxprice") params.Maxprice else q
        | .error _ => q
      else q
    let q :=
      if params.Minprice ≠ [] then
        match Atoi params.Minprice with
        | .ok minp => if 0 ≤ minp ∧ minp ≤ 4 then q.Set (str "minprice") params.Minprice else q
        | .error _ => q
      else q
    let q := if params.Opennow then q.Set (str "opennow") (str "true") else q
    let q :=
      if params.Radius ≠ [] then
        match Atoi params.Radius with
        | .ok _ => q.Set (str "radius") params.Radius
        | .error _ => q
      else q
    let q := if params.Type_ ≠ [] then q.Set (str "type") params.Type_ else q
    q.Encode

/-! ## The response schema of the spec -/

/-- The value of the member called `name` of a JSON object. -/
def member (ms : List (GoString × JSON)) (name : GoString) : Option JSON :=
  match ms with
  | [] => none
  | m :: rest => if m.1 = name then some m.2 else member rest name

/-- Read a member into a field: an absent member leaves the field as it is. -/
def readMember {α : Type} (dec : α → JSON → α) (cur : α) (o : Option JSON) : α :=
  match o with
  | some v => dec cur v
  | none => cur

/-- A JSON object fits a struct when no member name occurs twice and every
member is either one of the `documented` members or an unknown one, which
selects no field of the struct. -/
def namesOK (names documented : List GoString) (ms : List (GoString × JSON)) : Bool :=
  decide (ms.map Prod.fst).Nodup
    && ms.all (fun m => decide (m.1 ∈ documented) || (fieldIndex names m.1).isNone)

/-- The members of a plus code in the response. -/
def plusCodeMembers : List GoString := [str "compound_code", str "global_code"]

/-- A plus code by the schema: the members `compound_code` and `global_code`. -/
def schemaPlusCode (cur : PlusCode) : JSON → PlusCode
  | .object ms =>
    { CompoundCode := readMember decodeString cur.CompoundCode (member ms (str "compound_code"))
      GlobalCode := readMember decodeString cur.GlobalCode (member ms (str "global_code")) }
  | _ => cur

/-- A JSON value fits the schema of a plus code. -/
def plusCodeSchema : JSON → Bool
  | .object ms => namesOK [str "compound_code", str "global_code"] plusCodeMembers ms
  | _ => true

/-- The members of a photo in the response. -/
def photoMembers : List GoString :=
  [str "height", str "html_attributions", str "photo_reference", str "width"]

/-- A photo by the schema. -/
def schemaPhoto (cur : Photo) : JSON → Photo
  | .object ms =>
    { Height := readMember decodeInt64 cur.Height (member ms (str "height"))
      HtmlAttributions :=
        readMember (decodeSlice (decodeString [])) cur.HtmlAttributions
          (member ms (str "html_attributions"))
      PhotoReference :=
        readMember decodeString cur.PhotoReference (member ms (str "photo_reference"))
      Width := readMember decodeInt64 cur.Width (member ms (str "width")) }
  | _ => cur

/-- A JSON value fits the schema of a photo. -/
def photoSchema : JSON → Bool
  | .object ms =>
    namesOK [str "height", str "html_attributions", str "photo_reference", str "width"]
      photoMembers ms
  | _ => true

/-- A JSON value fits the schema of the `photos` array. -/
def photosSchema : JSON → Bool
  | .array elems => elems.all photoSchema
  | _ => true

/-- The members of a location in the response. -/
def locationMembers : List GoString := [str "lat", str "lng"]

/-- A location by the schema: the members `lat` and `lng`. -/
def schemaLocation (parseFloat : GoString → Option Float64) (cur : Location) :
    JSON → Location
  | .object ms =>
    { Lat := readMember (decodeFloat64 parseFloat) cur.Lat (member ms (str "lat"))
      Lng := readMember (decodeFloat64 parseFloat) cur.Lng (member ms (str "lng")) }
  | _ => cur

/-- A JSON value fits the schema of a location. -/
def locationSchema : JSON → Bool
  | .object ms => namesOK [str "lat", str "lng"] locationMembers ms
  | _ => true

/-- The documented member of a geometry in the response; others, such as
`viewport`, are unknown to the client. -/
def geometryMembers : List GoString := [str "location"]

/-- A geometry by the schema: the member `location`. -/
def schemaGeometry (parseFloat : GoString → Option Float64) (cur : Geometry) :
    JSON → Geometry
  | .object ms =>
    { Location := readMember (schemaLocation parseFloat) cur.Location
        (member ms (str "location")) }
  | _ => cur

/-- A JSON value fits the schema of a geometry. -/
def geometrySchema : JSON → Bool
  | .object ms =>
    namesOK [str "Location"] geometryMembers ms
      && ms.all (fun m => m.1 != str "location" || locationSchema m.2)
  | _ => true

/-- The members of a place in the response that the result carries; others,
`opening_hours` among them, select no field. -/
def placeMembers : List GoString :=
  [str "formatted_address", str "icon", str "icon_background_color",
   str "icon_mask_base_uri", str "name", str "place_id", str "plus_code",
   str "price_level", str "rating", str "reference", str "types",
   str "user_ratings_total", str "business_status", str "geometry", str "photos"]

/-- A place by the schema: every tagged field from the member of its tag, the
geometry from `geometry`, the photos from `photos`; the opening hours are not
read. -/
def schemaPlace (parseFloat : GoString → Option Float64) (cur : Place) : JSON → Place
  | .object ms =>
    { FormattedAddress :=
        readMember decodeString cur.FormattedAddress (member ms (str "formatted_address"))
      Icon := readMember decodeString cur.Icon (member ms (str "icon"))
      IconBackgroundColor :=
        readMember decodeString cur.IconBackgroundColor
          (member ms (str "icon_background_color"))
      IconMaskBaseUri :=
        readMember decodeString cur.IconMaskBaseUri (member ms (str "icon_mask_base_uri"))
      Name := readMember decodeString cur.Name (member ms (str "name"))
      PlaceID := readMember decodeString cur.PlaceID (member ms (str "place_id"))
      PlusCode := readMember schemaPlusCode cur.PlusCode (member ms (str "plus_code"))
      PriceLevel := readMember decodeInt64 cur.PriceLevel (member ms (str "price_level"))
      Rating := readMember (decodeFloat64 parseFloat) cur.Rating (member ms (str "rating"))
      Reference := readMember decodeString cur.Reference (member ms (str "reference"))
      Types := readMember (decodeSlice (decodeString [])) cur.Types (member ms (str "types"))
      UserRatingsTotal :=
        readMember decodeInt64 cur.UserRatingsTotal (member ms (str "user_ratings_total"))
      BusinessStatus :=
        readMember decodeString cur.BusinessStatus (member ms (str "business_status"))
      Geometry :=
        readMember (schemaGeometry parseFloat) cur.Geometry (member ms (str "geometry"))
      Photos := readMember (decodeSlice (schemaPhoto {})) cur.Photos (member ms (str "photos"))
      OpeningHours := cur.OpeningHours }
  | _ => cur

/-- A JSON value fits the schema of a place. -/
def placeSchema : JSON → Bool
  | .object ms =>
    namesOK placeFieldNames placeMembers ms
      && ms.all (fun m =>
        (m.1 != str "plus_code" || plusCodeSchema m.2)
          && (m.1 != str "geometry" || geometrySchema m.2)
          && (m.1 != str "photos" || photosSchema m.2))
  | _ => true

/-- A JSON value fits the schema of the `results` array. -/
def resultsSchema : JSON → Bool
  | .array elems => elems.all placeSchema
  | _ => true

/-- The members of the response. -/
def resultMembers : List GoString := [str "html_attributions", str "status", str "results"]

/-- The response by the schema: `html_attributions`, `status`, and the places of
`results` in their order. -/
def schemaPlaceResult (parseFloat : GoString → Option Float64) (cur : PlaceResult) :
    JSON → PlaceResult
  | .object ms =>
    { HtmlAttributions :=
        readMember (decodeSlice (decodeString [])) cur.HtmlAttributions
          (member ms (str "html_attributions"))
      Status := readMember decodeString cur.Status (member ms (str "status"))
      Results :=
        readMember (decodeSlice (schemaPlace parseFloat {})) cur.Results
          (member ms (str "results")) }
  | _ => cur

/-- A JSON value is a response of the documented schema: an object whose
members, and those of the places, geometries, locations, plus codes and photos
in it, are documented ones, each at most once, or unknown ones. -/
def responseSchema : JSON → Bool
  | .object ms =>
    namesOK [str "html_attributions", str "status", str "results"] resultMembers ms
      && ms.all (fun m => m.1 != str "results" || resultsSchema m.2)
  | _ => false

/-! ## The sample response of the repository's test -/

/-- The body of the mock response of `TestClient_TextSearch`. -/
def sampleBody : GoString :=
  str ("\x7b\n\t\t\t\"html_attributions\": [],\n\t\t\t\"status\":\"OK\",\n\t\t\t" ++
    "\"results\" : [\x7b\"business_status\" : \"OPERATIONAL\",\"formatted_add" ++
    "ress\" : \"address\",\"geometry\" : \x7b\"location\" : \x7b\"lat\" : 35." ++
    "6951141,\"lng\" : 139.7926941\x7d,\"viewport\" : \x7b\"northeast\" : " ++
    "\x7b\"lat\" : 35.69649627989271,\"lng\" : 139.7940198298927\x7d,\"southw" ++
    "est\" : \x7b\"lat\" : 35.69379662010727,\"lng\" : 139.7913201701073\x7d" ++
    "\x7d\x7d,\"icon\" : \"icon.jpg\",\"icon_background_color\" : \"#FF9E67\"" ++
    ",\"icon_mask_base_uri\" : \"https://icon_mask_base_uri\",\"name\" : \"be" ++
    "er factory\",\"opening_hours\" : \x7b\"open_now\" : false\x7d,\"photos\"" ++
    " : [\x7b\"height\" : 4160,\"html_attributions\" : [\"html_attribution1\"" ++
    "],\"photo_reference\" : \"photo_reference1\",\"width\" : 3120\x7d],\"pla" ++
    "ce_id\" : \"place_id_1\",\"plus_code\" : \x7b\"compound_code\" : \"MQWV+" ++
    "23 Tokyo\",\"global_code\" : \"8Q7XMQWV+23\"\x7d,\"price_level\" : 3,\"r" ++
    "ating\" : 4.3,\"reference\" : \"reference1\",\"types\" : [ \"bar\", \"re" ++
    "staurant\", \"food\"],\"user_ratings_total\" : 1047\x7d]\n\t \x7d")

/-- The members of the JSON object of `sampleBody`. -/
def sampleMembers : List (GoString × JSON) :=
    [(str "html_attributions", .array []),
     (str "status", .string (str "OK")),
     (str "results",
      .array
        [.object
          [(str "business_status", .string (str "OPERATIONAL")),
           (str "formatted_address", .string (str "address")),
           (str "geometry",
            .object
              [(str "location",
                .object [(str "lat", .number (str "35.6951141")),
                         (str "lng", .number (str "139.7926941"))]),
               (str "viewport",
                .object
                  [(str "northeast",
                    .object [(str "lat", .number (str "35.69649627989271")),
                             (str "lng", .number (str "139.7940198298927"))]),
                   (str "southwest",
                    .object [(str "lat", .number (str "35.69379662010727")),
                             (str "lng", .number (str "139.7913201701073"))])])]),
           (str "icon", .string (str "icon.jpg")),
           (str "icon_background_color", .string (str "#FF9E67")),
           (str "icon_mask_base_uri", .string (str "https://icon_mask_base_uri")),
           (str "name", .string (str "beer factory")),
           (str "opening_hours", .object [(str "open_now", .bool false)]),
           (str "photos",
            .array
              [.object
                [(str "height", .number (str "4160")),
                 (str "html_attributions", .array [.string (str "html_attribution1")]),
                 (str "photo_reference", .string (str "photo_reference1")),
                 (str "width", .number (str "3120"))]]),
           (str "place_id", .string (str "place_id_1")),
           (str "plus_code",
            .object [(str "compound_code", .string (str "MQWV+23 Tokyo")),
                     (str "global_code", .string (str "8Q7XMQWV+23"))]),
           (str "price_level", .number (str "3")),
           (str "rating", .number (str "4.3")),
           (str "reference", .string (str "reference1")),
           (str "types",
            .array [.string (str "bar"), .string (str "restaurant"), .string (str "food")]),
           (str "user_ratings_total", .number (str "1047"))]])]

/-- The JSON value of `sampleBody`. -/
def sampleJSON : JSON := .object sampleMembers

/-- The float literals of the test, as `strconv.ParseFloat` reads them: the
`float64` of the same decimal literal. -/
def sampleParseFloat (lit : GoString) : Option Float64 :=
  if lit = str "35.6951141" then some 35.6951141
  else if lit = str "139.7926941" then some 139.7926941
  else if lit = str "4.3" then some 4.3
  else none

/-- The environment of `TestClient_TextSearch`: every request is answered with
status 200 and `sampleBody`. -/
def sampleEnv : Env :=
  { Parse := fun s =>
      if s = textSearchURL then .ok textSearchParsed
      else .error (.external (str "parse error"))
    NewRequest := fun _ _ => none
    Do := fun _ => .ok ⟨200, str "200 OK", .ok sampleBody⟩
    scan := fun body => if body = sampleBody then some sampleJSON else none
    ParseFloat := sampleParseFloat }

/-- The `want` of `TestClient_TextSearch`. -/
def sampleWant : PlaceResult :=
  { Status := str "OK"
    HtmlAttributions := some []
    Results := some
      [{ FormattedAddress := str "address"
         Icon := str "icon.jpg"
         IconBackgroundColor := str "#FF9E67"
         IconMaskBaseUri := str "https://icon_mask_base_uri"
         Name := str "beer factory"
         PlaceID := str "place_id_1"
         PlusCode := { CompoundCode := str "MQWV+23 Tokyo", GlobalCode := str "8Q7XMQWV+23" }
         PriceLevel := 3
         Rating := 4.3
         Reference := str "reference1"
         Types := some [str "bar", str "restaurant", str "food"]
         UserRatingsTotal := 1047
         BusinessStatus := str "OPERATIONAL"
         Geometry := { Location := { Lat := 35.6951141, Lng := 139.7926941 } }
         Photos := some
           [{ Height := 4160
              Width := 3120
              HtmlAttributions := some [str "html_attribution1"]
              PhotoReference := str "photo_reference1" }]
         OpeningHours := { OpenNow := false } }] }

/-! # Lemmas -/

/-! ## Lemmas: strings -/

theorem Cut_append (a b : GoString) (sep : Byte) (h : sep ∉ a) :
    Cut (a ++ sep :: b) sep = (a, b, true) := by
  induction a with
  | nil => simp [Cut]
  | cons c a ih =>
    have hc : c ≠ sep := fun e => h (by simp [e])
    have ha : sep ∉ a := fun e => h (by simp [e])
    simp [Cut, hc, ih ha]

theorem Cut_not_mem (a : GoString) (sep : Byte) (h : sep ∉ a) :
    Cut a sep = (a, [], false) := by
  induction a with
  | nil => simp [Cut]
  | cons c a ih =>
    have hc : c ≠ sep := fun e => h (by simp [e])
    have ha : sep ∉ a := fun e => h (by simp [e])
    simp [Cut, hc, ih ha]

theorem Split_not_mem (a : GoString) (sep : Byte) (h : sep ∉ a) : Split a sep = [a] := by
  induction a with
  | nil => simp [Split]
  | cons c a ih =>
    have hc : c ≠ sep := fun e => h (by simp [e])
    have ha : sep ∉ a := fun e => h (by simp [e])
    simp [Split, hc, ih ha]

theorem Split_append (a b : GoString) (sep : Byte) (h : sep ∉ a) :
    Split (a ++ sep :: b) sep = a :: Split b sep := by
  induction a with
  | nil => simp [Split]
  | cons c a ih =>
    have hc : c ≠ sep := fun e => h (by simp [e])
    have ha : sep ∉ a := fun e => h (by simp [e])
    simp [Split, hc, ih ha]

theorem Split_ne_nil (s : GoString) (sep : Byte) : Split s sep ≠ [] := by
  cases s with
  | nil => simp [Split]
  | cons c s =>
    simp only [Split]
    split
    · simp
    · split <;> simp

theorem Split_length (s : GoString) (sep : Byte) : (Split s sep).length = s.count sep + 1 := by
  induction s with
  | nil => simp [Split]
  | cons c s ih =>
    simp only [Split]
    by_cases hc : c = sep
    · subst hc
      simp [ih]
    · have hne := Split_ne_nil s sep
      rw [if_neg hc]
      cases hs : Split s sep with
      | nil => exact absurd hs hne
      | cons p ps =>
        rw [hs] at ih
        simp [List.count_cons, hc] at ih ⊢
        omega

/-! ## Lemmas: query escaping -/

theorem QueryEscape_cons (c : Byte) (s : GoString) :
    QueryEscape (c :: s) = QueryEscape [c] ++ QueryEscape s := by
  simp only [QueryEscape]
  split
  · simp
  · split <;> simp

set_option maxRecDepth 100000 in
theorem QueryEscape_byte_clean :
    ∀ c : Byte, (QueryEscape [c]).all (fun b => !isSeparator b) = true := by
  decide

theorem QueryEscape_clean (s : GoString) :
    ∀ b ∈ QueryEscape s, b ≠ byteOf '&' ∧ b ≠ byteOf '=' ∧ b ≠ byteOf ';' := by
  induction s with
  | nil => simp [QueryEscape]
  | cons c s ih =>
    intro b hb
    rw [QueryEscape_cons, List.mem_append] at hb
    rcases hb with hb | hb
    · have h := List.all_eq_true.mp (QueryEscape_byte_clean c) b hb
      simpa [isSeparator] using h
    · exact ih b hb

set_option maxRecDepth 100000 in
theorem escapeCases_all : ∀ c : Byte, escapeCases c = true := by
  decide

theorem QueryUnescape_cons_plain (c : Byte) (s t : GoString) (hc : c ≠ byteOf '%')
    (h : QueryUnescape s = .ok t) :
    QueryUnescape (c :: s) = .ok ((if c = byteOf '+' then byteOf ' ' else c) :: t) := by
  rw [QueryUnescape.eq_def]
  simp only [if_neg hc, h]

theorem QueryUnescape_cons_percent (h1 h2 : Byte) (rest t : GoString)
    (hh1 : ishex h1 = true) (hh2 : ishex h2 = true) (h : QueryUnescape rest = .ok t) :
    QueryUnescape (byteOf '%' :: h1 :: h2 :: rest)
      = .ok (Fin.ofNat ((unhex h1 <<< 4) ||| unhex h2) :: t) := by
  rw [QueryUnescape.eq_def]
  simp only [if_true, hh1, hh2, Bool.and_self, h]

theorem QueryUnescape_escape_append (c : Byte) (rest t : GoString)
    (h : QueryUnescape rest = .ok t) :
    QueryUnescape (QueryEscape [c] ++ rest) = .ok (c :: t) := by
  have hc := escapeCases_all c
  unfold escapeCases at hc
  by_cases h1 : c = byteOf ' '
  · simp only [h1, if_true, beq_iff_eq] at hc
    subst h1
    rw [hc, List.singleton_append,
      QueryUnescape_cons_plain (byteOf '+') rest t (by decide) h]
    simp
  · rw [if_neg h1] at hc
    by_cases h2 : shouldEscape c = true
    · rw [if_pos h2] at hc
      simp only [Bool.and_eq_true, beq_iff_eq] at hc
      obtain ⟨⟨⟨e1, e2⟩, e3⟩, e4⟩ := hc
      rw [e1]
      simp only [List.cons_append, List.nil_append]
      rw [QueryUnescape_cons_percent _ _ rest t e2 e3 h, e4]
    · rw [if_neg h2] at hc
      simp only [Bool.and_eq_true, beq_iff_eq, bne_iff_ne, ne_eq] at hc
      obtain ⟨⟨e1, e2⟩, e3⟩ := hc
      rw [e1, List.singleton_append, QueryUnescape_cons_plain c rest t e2 h, if_neg e3]

theorem QueryUnescape_QueryEscape (s : GoString) : QueryUnescape (QueryEscape s) = .ok s := by
  induction s with
  | nil => simp [QueryEscape, QueryUnescape]
  | cons c s ih =>
    rw [QueryEscape_cons]
    exact QueryUnescape_escape_append c _ _ ih

/-! ## Lemmas: `Values` -/

theorem update_keys_subset (key : GoString) (f : List GoString → List GoString) (v : Values) :
    ∀ k ∈ (Values.update key f v).map Prod.fst, k = key ∨ k ∈ v.map Prod.fst := by
  induction v with
  | nil => simp [Values.update]
  | cons e rest ih =>
    obtain ⟨k', vs⟩ := e
    intro k hk
    simp only [Values.update] at hk
    split at hk
    · simp at hk ⊢; tauto
    · split at hk
      · simp at hk ⊢; tauto
      · simp only [List.map_cons, List.mem_cons] at hk
        rcases hk with hk | hk
        · simp [hk]
        · rcases ih k hk with h | h
          · exact Or.inl h
          · simp only [List.map_cons, List.mem_cons]; tauto

theorem update_WF (key : GoString) (f : List GoString → List GoString)
    (hf : ∀ vs, f vs ≠ []) (v : Values) (hv : v.WF) : (Values.update key f v).WF := by
  induction v with
  | nil => simp [Values.update, Values.WF, hf]
  | cons e rest ih =>
    obtain ⟨k', vs⟩ := e
    obtain ⟨hs, hne⟩ := hv
    simp only [List.map_cons, List.sorted_cons] at hs
    have hrest : Values.WF rest := ⟨hs.2, fun e he => hne e (List.mem_cons_of_mem _ he)⟩
    simp only [Values.update]
    split
    · refine ⟨by simpa using hs, ?_⟩
      intro e he
      simp only [List.mem_cons] at he
      rcases he with he | he
      · simp [he, hf]
      · exact hne e (List.mem_cons_of_mem _ he)
    · rename_i hk
      split
      · rename_i hlt
        refine ⟨?_, ?_⟩
        · simp only [List.map_cons, List.sorted_cons, List.mem_cons]
          refine ⟨?_, hs⟩
          intro b hb
          rcases hb with hb | hb
          · exact hb ▸ hlt
          · exact lt_trans hlt (hs.1 b hb)
        · intro e he
          simp only [List.mem_cons] at he
          rcases he with he | he | he
          · simp [he, hf]
          · simpa [he] using hne (k', vs) (List.mem_cons_self _ _)
          · exact hne e (List.mem_cons_of_mem _ he)
      · rename_i hnlt
        have hgt : k' < key := lt_of_le_of_ne (not_lt.mp hnlt) (Ne.symm hk)
        obtain ⟨is, ine⟩ := ih hrest
        refine ⟨?_, ?_⟩
        · simp only [List.map_cons, List.sorted_cons]
          refine ⟨?_, is⟩
          intro b hb
          rcases update_keys_subset key f rest b hb with h | h
          · exact h ▸ hgt
          · exact hs.1 b h
        · intro e he
          simp only [List.mem_cons] at he
          rcases he with he | he
          · simpa [he] using hne (k', vs) (List.mem_cons_self _ _)
          · exact ine e he

theorem Set_WF (v : Values) (key value : GoString) (hv : v.WF) : (v.Set key value).WF :=
  update_WF key _ (fun _ => by simp) v hv

theorem Add_WF (v : Values) (key value : GoString) (hv : v.WF) : (v.Add key value).WF :=
  update_WF key _ (fun _ => by simp) v hv

theorem nil_WF : Values.WF [] := by simp [Values.WF]

theorem update_append_of_lt (key : GoString) (f : List GoString → List GoString)
    (m rest : Values) (hm : ∀ e ∈ m, e.1 < key) :
    Values.update key f (m ++ rest) = m ++ Values.update key f rest := by
  induction m with
  | nil => rfl
  | cons e m ih =>
    obtain ⟨k', vs⟩ := e
    have hlt : k' < key := hm (k', vs) (List.mem_cons_self _ _)
    have h1 : key ≠ k' := ne_of_gt hlt
    have h2 : ¬ key < k' := not_lt_of_gt hlt
    have ih' := ih (fun e he => hm e (List.mem_cons_of_mem _ he))
    simp only [List.cons_append, Values.update, if_neg h1, if_neg h2, List.cons.injEq, true_and]
    exact ih'

theorem foldl_Add_same_key (m : Values) (k : GoString) (vs xs : List GoString)
    (hm : ∀ e ∈ m, e.1 < k) :
    (xs.map (fun x => (k, x))).foldl (fun acc p => Values.Add acc p.1 p.2) (m ++ [(k, vs)])
      = m ++ [(k, vs ++ xs)] := by
  induction xs generalizing vs with
  | nil => simp
  | cons x xs ih =>
    simp only [List.map_cons, List.foldl_cons, Values.Add]
    rw [update_append_of_lt k _ m _ hm]
    simp only [Values.update, if_true]
    rw [show (fun (acc : Values) (p : GoString × GoString) =>
          Values.update p.1 (fun vs => vs ++ [p.2]) acc)
        = (fun acc p => Values.Add acc p.1 p.2) from rfl, ih (vs ++ [x])]
    simp

theorem foldl_Add_pairs (m v : Values) (hv : v.WF) (hm : ∀ e ∈ m, ∀ e' ∈ v, e.1 < e'.1) :
    v.pairs.foldl (fun acc p => Values.Add acc p.1 p.2) m = m ++ v := by
  induction v generalizing m with
  | nil => simp [Values.pairs]
  | cons e rest ih =>
    obtain ⟨k, vs⟩ := e
    obtain ⟨hs, hne⟩ := hv
    simp only [List.map_cons, List.sorted_cons] at hs
    have hrest : Values.WF rest := ⟨hs.2, fun e he => hne e (List.mem_cons_of_mem _ he)⟩
    have hmk : ∀ e ∈ m, e.1 < k := fun e he => hm e he (k, vs) (List.mem_cons_self _ _)
    cases vs with
    | nil => exact absurd rfl (hne (k, []) (List.mem_cons_self _ _))
    | cons x xs =>
      simp only [Values.pairs, List.map_cons, List.cons_append, List.foldl_cons, List.foldl_append]
      have h0 : Values.Add m k x = m ++ [(k, [x])] := by
        have := update_append_of_lt k (fun vs => vs ++ [x]) m [] hmk
        simpa [Values.Add, Values.update] using this
      rw [h0, foldl_Add_same_key m k [x] xs hmk, ih (m ++ [(k, [x] ++ xs)]) hrest]
      · simp
      · intro e he e' he'
        rw [List.mem_append] at he
        rcases he with he | he
        · exact hm e he e' (List.mem_cons_of_mem _ he')
        · simp only [List.mem_singleton] at he
          subst he
          exact hs.1 e'.1 (List.mem_map_of_mem _ he')

theorem foldl_Add_pairs_nil (v : Values) (hv : v.WF) :
    v.pairs.foldl (fun acc p => Values.Add acc p.1 p.2) [] = v := by
  simpa using foldl_Add_pairs [] v hv (by simp)

/-! ## Lemmas: `Encode` and `ParseQuery` -/

theorem lookup_of_mem (v : Values) (hs : (v.map Prod.fst).Sorted (· < ·)) :
    ∀ e ∈ v, v.lookup e.1 = some e.2 := by
  induction v with
  | nil => simp
  | cons e0 rest ih =>
    obtain ⟨k, vs⟩ := e0
    simp only [List.map_cons, List.sorted_cons] at hs
    intro e he
    simp only [List.mem_cons] at he
    rcases he with he | he
    · subst he
      simp [Values.lookup]
    · have hlt : k < e.1 := hs.1 e.1 (List.mem_map_of_mem _ he)
      simp only [Values.lookup, if_neg (ne_of_gt hlt)]
      exact ih hs.2 e he

theorem foldl_encodeWrite_nonempty (buf : GoString) (hb : buf ≠ [])
    (ps : List (GoString × GoString)) :
    ps.foldl (fun b p => encodeWrite (QueryEscape p.1) b p.2) buf
      = buf ++ (ps.map (fun p => byteOf '&' :: encodePair p)).flatten := by
  induction ps generalizing buf with
  | nil => simp
  | cons p ps ih =>
    have hlen : buf.length > 0 := List.length_pos.mpr hb
    simp only [List.foldl_cons, List.map_cons, List.flatten_cons]
    rw [ih]
    · simp [encodeWrite, hlen, encodePair]
    · simp [encodeWrite]

theorem foldl_encodeWrite_nil (ps : List (GoString × GoString)) :
    ps.foldl (fun b p => encodeWrite (QueryEscape p.1) b p.2) [] = joinPairs ps := by
  cases ps with
  | nil => rfl
  | cons p ps =>
    simp only [List.foldl_cons, joinPairs]
    rw [foldl_encodeWrite_nonempty]
    · simp [encodeWrite, encodePair]
    · simp [encodeWrite]

theorem foldl_keys_eq_foldl_pairs (v w : Values) (hw : ∀ e ∈ w, v.lookup e.1 = some e.2)
    (buf : GoString) :
    (w.map Prod.fst).foldl
        (fun buf k => ((v.lookup k).getD []).foldl (encodeWrite (QueryEscape k)) buf) buf
      = w.pairs.foldl (fun b p => encodeWrite (QueryEscape p.1) b p.2) buf := by
  induction w generalizing buf with
  | nil => rfl
  | cons e rest ih =>
    obtain ⟨k, vs⟩ := e
    have hk := hw (k, vs) (List.mem_cons_self _ _)
    simp only at hk
    have hinner : (vs.map (fun x => (k, x))).foldl
          (fun b p => encodeWrite (QueryEscape p.1) b p.2) buf
        = vs.foldl (encodeWrite (QueryEscape k)) buf := by
      rw [List.foldl_map]
    rw [List.map_cons, List.foldl_cons, Values.pairs, List.foldl_append, hinner]
    simp only [hk, Option.getD_some]
    exact ih (fun e he => hw e (List.mem_cons_of_mem _ he)) _

theorem Encode_eq_joinPairs (v : Values) (hs : (v.map Prod.fst).Sorted (· < ·)) :
    v.Encode = joinPairs v.pairs := by
  have hsort : (v.map Prod.fst).insertionSort (· ≤ ·) = v.map Prod.fst :=
    List.Sorted.insertionSort_eq (hs.imp (fun h => le_of_lt h))
  unfold Values.Encode
  simp only [hsort]
  rw [foldl_keys_eq_foldl_pairs v v (lookup_of_mem v hs), foldl_encodeWrite_nil]

theorem encodePair_clean (p : GoString × GoString) :
    byteOf '&' ∉ encodePair p ∧ byteOf ';' ∉ encodePair p := by
  have h1 := QueryEscape_clean p.1
  have h2 := QueryEscape_clean p.2
  have e1 : byteOf '&' ≠ byteOf '=' := by decide
  have e2 : byteOf ';' ≠ byteOf '=' := by decide
  constructor
  · intro h
    simp only [encodePair, List.mem_append, List.mem_cons] at h
    rcases h with h | h | h
    · exact (h1 _ h).1 rfl
    · exact e1 h
    · exact (h2 _ h).1 rfl
  · intro h
    simp only [encodePair, List.mem_append, List.mem_cons] at h
    rcases h with h | h | h
    · exact (h1 _ h).2.2 rfl
    · exact e2 h
    · exact (h2 _ h).2.2 rfl

theorem joinPairs_cons_cons (p p' : GoString × GoString) (ps : List (GoString × GoString)) :
    joinPairs (p :: p' :: ps) = encodePair p ++ byteOf '&' :: joinPairs (p' :: ps) := by
  simp [joinPairs]

theorem Split_joinPairs (p : GoString × GoString) (ps : List (GoString × GoString)) :
    Split (joinPairs (p :: ps)) (byteOf '&') = (p :: ps).map encodePair := by
  induction ps generalizing p with
  | nil =>
    simp only [joinPairs, List.map_nil, List.flatten_nil, List.append_nil, List.map_cons]
    exact Split_not_mem _ _ (encodePair_clean p).1
  | cons p' ps ih =>
    rw [joinPairs_cons_cons, Split_append _ _ _ (encodePair_clean p).1, ih p']
    simp

theorem parseQueryStep_encodePair (st : Values × Option GoError) (p : GoString × GoString) :
    parseQueryStep st (encodePair p) = (st.1.Add p.1 p.2, st.2) := by
  have hsemi : Contains (encodePair p) (byteOf ';') = false := by
    simpa [Contains] using (encodePair_clean p).2
  have hne : encodePair p ≠ [] := by simp [encodePair]
  have hcut : Cut (encodePair p) (byteOf '=') = (QueryEscape p.1, QueryEscape p.2, true) :=
    Cut_append _ _ _ (fun h => (QueryEscape_clean p.1 _ h).2.1 rfl)
  unfold parseQueryStep
  simp only [hsemi, hne, hcut, QueryUnescape_QueryEscape, if_false, Bool.false_eq_true]

theorem foldl_parseQueryStep (ps : List (GoString × GoString)) (st : Values × Option GoError) :
    (ps.map encodePair).foldl parseQueryStep st
      = (ps.foldl (fun acc p => Values.Add acc p.1 p.2) st.1, st.2) := by
  induction ps generalizing st with
  | nil => rfl
  | cons p ps ih =>
    simp only [List.map_cons, List.foldl_cons, parseQueryStep_encodePair, ih]

theorem ParseQuery_joinPairs (ps : List (GoString × GoString)) :
    ParseQuery (joinPairs ps) = (ps.foldl (fun acc p => Values.Add acc p.1 p.2) [], none) := by
  cases ps with
  | nil => decide
  | cons p ps =>
    unfold ParseQuery
    rw [Split_joinPairs, foldl_parseQueryStep]

/-- Parsing what `Encode` wrote gives the map back, without an error. -/
theorem ParseQuery_Encode (v : Values) (hv : v.WF) : ParseQuery v.Encode = (v, none) := by
  rw [Encode_eq_joinPairs v hv.1, ParseQuery_joinPairs, foldl_Add_pairs_nil v hv]

/-! ## Lemmas: `createParams` -/

theorem update_update_const (key : GoString) (vs : List GoString) (v : Values) :
    Values.update key (fun _ => vs) (Values.update key (fun _ => vs) v)
      = Values.update key (fun _ => vs) v := by
  induction v with
  | nil => simp [Values.update]
  | cons e rest ih =>
    obtain ⟨k, ws⟩ := e
    by_cases h1 : key = k
    · subst h1
      simp [Values.update]
    · by_cases h2 : key < k
      · simp [Values.update, h1, h2]
      · simp [Values.update, h1, h2, ih]

theorem Set_Set_same (v : Values) (key value : GoString) :
    (v.Set key value).Set key value = v.Set key value :=
  update_update_const key [value] v

theorem ParseQuery_nil : ParseQuery [] = ([], none) := by decide

theorem setIf_Set_price (q : Values) (name s : GoString) :
    (if s ≠ [] then
        match Atoi s with
        | .ok n => if 0 ≤ n ∧ n ≤ 4 then q.Set name s else q
        | .error _ => q
      else q) = setIf (priceAccepted s) name s q := by
  unfold setIf priceAccepted
  cases s with
  | nil => simp
  | cons c s =>
    cases h : Atoi (c :: s) with
    | error e => simp
    | ok n => by_cases hn : 0 ≤ n ∧ n ≤ 4 <;> simp [hn]

theorem setIf_Set_radius (q : Values) (name s : GoString) :
    (if s ≠ [] then
        match Atoi s with
        | .ok _ => q.Set name s
        | .error _ => q
      else q) = setIf (radiusAccepted s) name s q := by
  unfold setIf radiusAccepted
  cases s with
  | nil => simp
  | cons c s => cases h : Atoi (c :: s) <;> simp

theorem setIf_Set_location (q : Values) (name s : GoString) :
    (if s ≠ [] then
        if (Split s (byteOf ',')).length = 2 then q.Set name s else q
      else q) = setIf (locationAccepted s) name s q := by
  unfold setIf locationAccepted
  cases s with
  | nil => simp
  | cons c s => by_cases h : (Split (c :: s) (byteOf ',')).length = 2 <;> simp [h]

theorem setIf_Set_nonempty (q : Values) (name s : GoString) :
    (if s ≠ [] then q.Set name s else q) = setIf (!s.isEmpty) name s q := by
  unfold setIf
  cases s <;> simp

theorem setIf_setIf_same (b : Bool) (q : Values) (name s : GoString) :
    setIf b name s (setIf b name s q) = setIf b name s q := by
  unfold setIf
  cases b <;> simp [Set_Set_same]

/-- The string `createParams` returns is the encoding of `paramValues`. -/
theorem createParams_eq_Encode (c : Client) (u : URL) (hu : u.RawQuery = [])
    (p : OptionalParams) : c.createParams u p = (paramValues c.key p).Encode := by
  unfold Client.createParams paramValues
  simp only [URL.Query, hu, ParseQuery_nil, setIf_Set_price, setIf_Set_radius,
    setIf_Set_location, setIf_Set_nonempty, setIf_setIf_same]
  split
  · rfl
  · cases p.Opennow <;> rfl

theorem setIf_WF (b : Bool) (name value : GoString) (q : Values) (hq : q.WF) :
    (setIf b name value q).WF := by
  unfold setIf
  cases b
  · simpa using hq
  · simpa using Set_WF q name value hq

theorem paramValues_WF (key : GoString) (p : OptionalParams) : (paramValues key p).WF := by
  unfold paramValues
  split
  · exact Set_WF _ _ _ (Set_WF _ _ _ nil_WF)
  · exact setIf_WF _ _ _ _ (setIf_WF _ _ _ _ (setIf_WF _ _ _ _ (setIf_WF _ _ _ _
      (setIf_WF _ _ _ _ (setIf_WF _ _ _ _ (setIf_WF _ _ _ _ (setIf_WF _ _ _ _
        (Set_WF _ _ _ nil_WF))))))))

/-- Parsing the string `createParams` returns gives `paramValues` back. -/
theorem ParseQuery_createParams (c : Client) (u : URL) (hu : u.RawQuery = [])
    (p : OptionalParams) :
    ParseQuery (c.createParams u p) = (paramValues c.key p, none) := by
  rw [createParams_eq_Encode c u hu p, ParseQuery_Encode _ (paramValues_WF c.key p)]

theorem lookup_none_of_lt (v : Values) (key : GoString)
    (h : ∀ k ∈ v.map Prod.fst, key < k) : v.lookup key = none := by
  induction v with
  | nil => rfl
  | cons e rest ih =>
    obtain ⟨k', vs⟩ := e
    have h1 : key ≠ k' := ne_of_lt (h k' (by simp))
    simp only [Values.lookup, if_neg h1]
    exact ih (fun k hk => h k (by simp only [List.map_cons, List.mem_cons]; exact Or.inr hk))

theorem lookup_update (key : GoString) (f : List GoString → List GoString) (v : Values)
    (hv : (v.map Prod.fst).Sorted (· < ·)) (k : GoString) :
    (Values.update key f v).lookup k
      = if k = key then some (f ((v.lookup key).getD [])) else v.lookup k := by
  induction v with
  | nil => simp [Values.update, Values.lookup]
  | cons e rest ih =>
    obtain ⟨k', vs⟩ := e
    simp only [List.map_cons, List.sorted_cons] at hv
    by_cases h1 : key = k'
    · subst h1
      by_cases h : k = key <;> simp [Values.update, Values.lookup, h]
    · by_cases h2 : key < k'
      · have hnone : Values.lookup rest key = none :=
          lookup_none_of_lt rest key (fun k hk => lt_trans h2 (hv.1 k hk))
        by_cases h : k = key
        · subst h
          simp [Values.update, Values.lookup, h1, h2, hnone]
        · simp [Values.update, Values.lookup, h1, h2, h]
      · by_cases h : k = key
        · subst h
          simp [Values.update, Values.lookup, h1, h2, ih hv.2]
        · simp only [Values.update, if_neg h1, if_neg h2, Values.lookup, ih hv.2, if_neg h]

theorem lookup_Set (v : Values) (hv : v.WF) (key value k : GoString) :
    (v.Set key value).lookup k = if k = key then some [value] else v.lookup k := by
  simp [Values.Set, lookup_update _ _ _ hv.1]

theorem lookup_Add (v : Values) (hv : v.WF) (key value k : GoString) :
    (v.Add key value).lookup k
      = if k = key then some ((v.lookup key).getD [] ++ [value]) else v.lookup k := by
  simp [Values.Add, lookup_update _ _ _ hv.1]

theorem lookup_setIf (b : Bool) (v : Values) (hv : v.WF) (key value k : GoString) :
    (setIf b key value v).lookup k
      = if b = true ∧ k = key then some [value] else v.lookup k := by
  unfold setIf
  cases b <;> simp [lookup_Set _ hv]

/-- The value `createParams` has set for the name `k`, when no page token is
given: the settings are tried from the last one made to the first. -/
theorem lookup_paramValues (key : GoString) (p : OptionalParams) (hp : p.Pagetoken = [])
    (k : GoString) :
    (paramValues key p).lookup k =
      if (!p.Type_.isEmpty) = true ∧ k = str "type" then some [p.Type_]
      else if radiusAccepted p.Radius = true ∧ k = str "radius" then some [p.Radius]
      else if p.Opennow = true ∧ k = str "opennow" then some [str "true"]
      else if priceAccepted p.Minprice = true ∧ k = str "minprice" then some [p.Minprice]
      else if priceAccepted p.Maxprice = true ∧ k = str "maxprice" then some [p.Maxprice]
      else if locationAccepted p.Location = true ∧ k = str "location" then some [p.Location]
      else if (!p.Region.isEmpty) = true ∧ k = str "region" then some [p.Region]
      else if (!p.Language.isEmpty) = true ∧ k = str "language" then some [p.Language]
      else if k = str "key" then some [key]
      else none := by
  unfold paramValues
  rw [if_neg (by simp [hp])]
  have w0 : (Values.Set [] (str "key") key).WF := Set_WF _ _ _ nil_WF
  have w1 := setIf_WF (!p.Language.isEmpty) (str "language") p.Language _ w0
  have w2 := setIf_WF (!p.Region.isEmpty) (str "region") p.Region _ w1
  have w3 := setIf_WF (locationAccepted p.Location) (str "location") p.Location _ w2
  have w4 := setIf_WF (priceAccepted p.Maxprice) (str "maxprice") p.Maxprice _ w3
  have w5 := setIf_WF (priceAccepted p.Minprice) (str "minprice") p.Minprice _ w4
  have w6 := setIf_WF p.Opennow (str "opennow") (str "true") _ w5
  have w7 := setIf_WF (radiusAccepted p.Radius) (str "radius") p.Radius _ w6
  rw [lookup_setIf _ _ w7, lookup_setIf _ _ w6, lookup_setIf _ _ w5, lookup_setIf _ _ w4,
    lookup_setIf _ _ w3, lookup_setIf _ _ w2, lookup_setIf _ _ w1, lookup_setIf _ _ w0,
    lookup_Set _ nil_WF]
  simp [Values.lookup]

/-! ## The page token and the empty query -/

theorem paramValues_pagetoken (key : GoString) (p : OptionalParams) (hp : p.Pagetoken ≠ []) :
    paramValues key p = [(str "key", [key]), (str "pagetoken", [p.Pagetoken])] := by
  unfold paramValues
  rw [if_pos hp]
  simp +decide [Values.Set, Values.update]

/-- C1: with a non-empty `Pagetoken`, `createParams` on a URL without a query of
its own returns the same string as for `OptionalParams{Pagetoken: p}` alone,
namely `key=<key>&pagetoken=<token>` (both escaped), and that string parses
into exactly the two parameters `key` and `pagetoken`. -/
theorem createParams_pagetoken (c : Client) (u : URL) (params : OptionalParams)
    (hu : u.RawQuery = []) (hp : params.Pagetoken ≠ []) :
    c.createParams u params = c.createParams u { Pagetoken := params.Pagetoken }
    ∧ c.createParams u params
        = str "key=" ++ QueryEscape c.key ++ str "&pagetoken=" ++ QueryEscape params.Pagetoken
    ∧ ParseQuery (c.createParams u params)
        = ([(str "key", [c.key]), (str "pagetoken", [params.Pagetoken])], none) := by
  refine ⟨?_, ?_, ?_⟩
  · rw [createParams_eq_Encode c u hu, createParams_eq_Encode c u hu,
      paramValues_pagetoken _ _ hp, paramValues_pagetoken _ _ (by simpa using hp)]
  · rw [createParams_eq_Encode c u hu, Encode_eq_joinPairs _ (paramValues_WF _ _).1,
      paramValues_pagetoken _ _ hp]
    have h1 : QueryEscape (str "key") = str "key" := by decide
    have h2 : QueryEscape (str "pagetoken") = str "pagetoken" := by decide
    have h3 : str "key=" = str "key" ++ [byteOf '='] := by decide
    have h4 : str "&pagetoken=" = byteOf '&' :: (str "pagetoken" ++ [byteOf '=']) := by decide
    simp [Values.pairs, joinPairs, encodePair, h1, h2, h3, h4]
  · rw [ParseQuery_createParams c u hu, paramValues_pagetoken _ _ hp]

/-- The test case "set pagetoken" of the repository, with other fields set as
well. -/
theorem createParams_pagetoken_witness :
    (Client.mk (str "test-api-key")).createParams ⟨textSearchURL, [], false, []⟩
        { Pagetoken := str "tokentoken", Language := str "en", Radius := str "5" }
      = str "key=test-api-key&pagetoken=tokentoken" := by
  rw [(createParams_pagetoken (Client.mk (str "test-api-key")) ⟨textSearchURL, [], false, []⟩
    { Pagetoken := str "tokentoken", Language := str "en", Radius := str "5" } rfl
    (by decide)).2.1]
  decide

/-- C3: `TextSearch` with the empty query returns a nil result and the error
`query is required. `, issues no request, and does so whatever the library and
the network would answer: nothing of the environment is consulted. -/
theorem TextSearch_empty_query {Ctx : Type} (env : Env) (c : Client) (ctx : Ctx)
    (params : OptionalParams) :
    (c.TextSearch env ctx [] params).value
        = (none, some (.errorfS (str "query is required. ") []))
    ∧ (c.TextSearch env ctx [] params).calls = []
    ∧ (∀ quote, (GoError.errorfS (str "query is required. ") []).Error quote
        = str "query is required. ")
    ∧ ∀ env2 : Env, (c.TextSearch env2 ctx [] params).value = (c.TextSearch env ctx [] params).value
        ∧ (c.TextSearch env2 ctx [] params).calls = [] := by
  simp [Client.TextSearch, GoError.Error]

/-! ## Lemmas: `strconv.Atoi` -/

set_option maxRecDepth 100000 in
theorem digitCases_all : ∀ c : Byte, digitCases c = true := by
  decide

theorem digit_facts (c : Byte) (h : isDigit c = true) :
    (byteOf '0' ≤ c ∧ c ≤ byteOf '9') ∧ (c - byteOf '0').val = c.val - 48 ∧ c.val - 48 ≤ 9 := by
  have := digitCases_all c
  unfold digitCases at this
  rw [h] at this
  exact of_decide_eq_true this

theorem nondigit_facts (c : Byte) (h : isDigit c = false) :
    ¬ (byteOf '0' ≤ c ∧ c ≤ byteOf '9') ∧ (c - byteOf '0').val > 9
      ∧ ((byteOf 'a' ≤ lower c ∧ lower c ≤ byteOf 'z') → (lower c - byteOf 'a' + 10).val ≥ 10) := by
  have := digitCases_all c
  unfold digitCases at this
  rw [h] at this
  exact of_decide_eq_true this

theorem digitsFrom_nil (n : Nat) : digitsFrom n [] = n := rfl

theorem digitsFrom_cons (n : Nat) (c : Byte) (s : GoString) :
    digitsFrom n (c :: s) = digitsFrom (n * 10 + (c.val - 48)) s := rfl

theorem digitsFrom_ge (n : Nat) (s : GoString) : n ≤ digitsFrom n s := by
  induction s generalizing n with
  | nil => exact Nat.le_refl _
  | cons c s ih =>
    have h := ih (n * 10 + (c.val - 48))
    rw [digitsFrom_cons]
    generalize digitsFrom (n * 10 + (c.val - 48)) s = m at h ⊢
    generalize c.val - 48 = d at h
    omega

theorem digitsFrom_lt (n : Nat) (s : GoString) (h : s.all isDigit = true) :
    digitsFrom n s < (n + 1) * 10 ^ s.length := by
  induction s generalizing n with
  | nil =>
    rw [digitsFrom_nil, List.length_nil, pow_zero]
    omega
  | cons c s ih =>
    simp only [List.all_cons, Bool.and_eq_true] at h
    have hd := (digit_facts c h.1).2.2
    have := ih (n * 10 + (c.val - 48)) h.2
    rw [digitsFrom_cons, List.length_cons, pow_succ]
    calc digitsFrom (n * 10 + (c.val - 48)) s
        < (n * 10 + (c.val - 48) + 1) * 10 ^ s.length := this
      _ ≤ ((n + 1) * 10) * 10 ^ s.length := Nat.mul_le_mul_right _ (by omega)
      _ = (n + 1) * (10 ^ s.length * 10) := by ring

theorem atoiFastLoop_eq (n : Nat) (s : GoString) :
    atoiFastLoop (n : Int) s
      = if s.all isDigit then some ((digitsFrom n s : Nat) : Int) else none := by
  induction s generalizing n with
  | nil => rfl
  | cons c s ih =>
    cases hd : isDigit c with
    | true =>
      obtain ⟨_, h2, h3⟩ := digit_facts c hd
      have h4 : ¬ (c - byteOf '0').val > 9 := by omega
      have := ih (n * 10 + (c.val - 48))
      rw [atoiFastLoop, if_neg h4, List.all_cons, hd, Bool.true_and, digitsFrom_cons, h2]
      push_cast at this ⊢
      exact this
    | false =>
      obtain ⟨_, h2, _⟩ := nondigit_facts c hd
      rw [atoiFastLoop, if_pos h2, List.all_cons, hd, Bool.false_and]
      rfl

theorem parseUintLoop_nondigit (n : Nat) (c : Byte) (s : GoString) (hd : isDigit c = false) :
    parseUintLoop n (c :: s) = none := by
  obtain ⟨h1, _, h3⟩ := nondigit_facts c hd
  rw [parseUintLoop]
  simp only [if_neg h1]
  by_cases hl : byteOf 'a' ≤ lower c ∧ lower c ≤ byteOf 'z'
  · simp only [if_pos hl, if_pos (h3 hl)]
  · simp only [if_neg hl]

theorem parseUintLoop_digit (n : Nat) (c : Byte) (s : GoString) (hd : isDigit c = true) :
    parseUintLoop n (c :: s)
      = if n ≥ (2 ^ 64 - 1) / 10 + 1 then some none
        else if (n * 10 + (c.val - 48)) % 2 ^ 64 < n * 10
            ∨ (n * 10 + (c.val - 48)) % 2 ^ 64 > 2 ^ 64 - 1 then some none
        else parseUintLoop ((n * 10 + (c.val - 48)) % 2 ^ 64) s := by
  obtain ⟨h1, h2, h3⟩ := digit_facts c hd
  have h4 : ¬ c.val - 48 ≥ 10 := by omega
  rw [parseUintLoop]
  simp only [if_pos h1, h2, if_neg h4]

theorem parseUintLoop_ok (n : Nat) (s : GoString) (hs : s.all isDigit = true)
    (hv : digitsFrom n s < 2 ^ 64) :
    parseUintLoop n s = some (some (digitsFrom n s)) := by
  induction s generalizing n with
  | nil => rfl
  | cons c s ih =>
    simp only [List.all_cons, Bool.and_eq_true] at hs
    obtain ⟨_, _, h3⟩ := digit_facts c hs.1
    rw [digitsFrom_cons] at hv ⊢
    have hge := digitsFrom_ge (n * 10 + (c.val - 48)) s
    have hlt : n * 10 + (c.val - 48) < 2 ^ 64 := lt_of_le_of_lt hge hv
    have hmod : (n * 10 + (c.val - 48)) % 2 ^ 64 = n * 10 + (c.val - 48) :=
      Nat.mod_eq_of_lt hlt
    rw [parseUintLoop_digit n c s hs.1, hmod]
    have e1 : ¬ n ≥ (2 ^ 64 - 1) / 10 + 1 := by
      generalize c.val - 48 = d at hlt
      omega
    have e2 : ¬ (n * 10 + (c.val - 48) < n * 10 ∨ n * 10 + (c.val - 48) > 2 ^ 64 - 1) := by
      generalize c.val - 48 = d at hlt
      omega
    rw [if_neg e1, if_neg e2]
    exact ih _ hs.2 hv

theorem parseUintLoop_some (n : Nat) (s : GoString) (m : Nat)
    (h : parseUintLoop n s = some (some m)) :
    s.all isDigit = true ∧ m = digitsFrom n s ∧ (n < 2 ^ 64 → m < 2 ^ 64) := by
  induction s generalizing n with
  | nil =>
    rw [parseUintLoop] at h
    simp only [Option.some.injEq] at h
    subst h
    exact ⟨rfl, rfl, id⟩
  | cons c s ih =>
    cases hd : isDigit c with
    | false =>
      rw [parseUintLoop_nondigit n c s hd] at h
      exact absurd h (by simp)
    | true =>
      obtain ⟨_, _, h3⟩ := digit_facts c hd
      rw [parseUintLoop_digit n c s hd] at h
      split at h
      · exact absurd h (by simp)
      · rename_i e1
        split at h
        · exact absurd h (by simp)
        · rename_i e2
          have hmod : (n * 10 + (c.val - 48)) % 2 ^ 64 = n * 10 + (c.val - 48) := by
            generalize c.val - 48 = d at e2 h3 ⊢
            omega
          rw [hmod] at h
          obtain ⟨a1, a2, a3⟩ := ih _ h
          refine ⟨by simp [hd, a1], by rw [digitsFrom_cons]; exact a2, fun _ => a3 ?_⟩
          generalize c.val - 48 = d at e2 h3 hmod ⊢
          omega

theorem ParseUint_some_iff (s : GoString) (m : Nat) :
    ParseUint s = some (some m) ↔ isDigits s = true ∧ m = digitsFrom 0 s ∧ m < 2 ^ 64 := by
  unfold ParseUint isDigits
  cases s with
  | nil => simp
  | cons c s =>
    simp only [reduceCtorEq, if_false, List.isEmpty_cons, Bool.not_false, Bool.true_and]
    constructor
    · intro h
      obtain ⟨a1, a2, a3⟩ := parseUintLoop_some 0 (c :: s) m h
      exact ⟨a1, a2, a3 (by norm_num)⟩
    · rintro ⟨a1, a2, a3⟩
      subst a2
      exact parseUintLoop_ok 0 (c :: s) a1 a3

theorem toInt64_of_lt (m : Nat) (h : m < 2 ^ 63) : toInt64 (m : Int) = m := by
  unfold toInt64
  omega

theorem toInt64_neg (m : Nat) (h : m ≤ 2 ^ 63) : toInt64 (-(toInt64 (m : Int))) = -(m : Int) := by
  unfold toInt64
  omega

/-- What `ParseInt` does once the sign is taken off: `neg` tells whether the
sign was `-`, `body` is the text after the sign. -/
theorem ParseInt_body (s0 body : GoString) (neg : Bool) (n : Int) :
    (match ParseUint body with
      | none => (Except.error (GoError.numSyntax (str "Atoi") s0) : Except GoError Int)
      | some r =>
        if ¬ (neg = true) ∧ r.getD (2 ^ 64 - 1) ≥ 2 ^ (intSize - 1) then
          .error (.numRange (str "Atoi") s0)
        else if neg = true ∧ r.getD (2 ^ 64 - 1) > 2 ^ (intSize - 1) then
          .error (.numRange (str "Atoi") s0)
        else
          .ok (if neg = true then toInt64 (-(toInt64 (r.getD (2 ^ 64 - 1))))
            else toInt64 (r.getD (2 ^ 64 - 1)))) = .ok n
      ↔ isDigits body = true
        ∧ n = (if neg = true then -(digitsFrom 0 body : Int) else (digitsFrom 0 body : Int))
        ∧ -2 ^ 63 ≤ n ∧ n < 2 ^ 63 := by
  have hsz : intSize - 1 = 63 := rfl
  rw [hsz]
  cases hr : ParseUint body with
  | none =>
    simp only [reduceCtorEq, false_iff]
    rintro ⟨a1, a2, a3, a4⟩
    have hlt : digitsFrom 0 body < 2 ^ 64 := by
      cases neg <;> simp at a2 <;> omega
    have := (ParseUint_some_iff body _).mpr ⟨a1, rfl, hlt⟩
    rw [hr] at this
    exact absurd this (by simp)
  | some r =>
    cases r with
    | none =>
      have hno : ¬ (isDigits body = true ∧ digitsFrom 0 body < 2 ^ 64) := by
        rintro ⟨a1, a2⟩
        have := (ParseUint_some_iff body _).mpr ⟨a1, rfl, a2⟩
        rw [hr] at this
        exact absurd this (by simp)
      cases neg
      · simp only [Option.getD_none, Bool.false_eq_true, not_false_eq_true, true_and,
          false_and, if_false]
        rw [if_pos (by norm_num)]
        simp only [reduceCtorEq, false_iff]
        rintro ⟨a1, a2, a3, a4⟩
        exact hno ⟨a1, by omega⟩
      · simp only [Option.getD_none, not_true_eq_false, false_and, if_false, true_and, if_true]
        rw [if_pos (by norm_num)]
        simp only [reduceCtorEq, false_iff]
        rintro ⟨a1, a2, a3, a4⟩
        exact hno ⟨a1, by omega⟩
    | some m =>
      obtain ⟨b1, b2, b3⟩ := (ParseUint_some_iff body m).mp hr
      subst b2
      simp only [Option.getD_some, b1, true_and]
      cases neg
      · simp only [Bool.false_eq_true, not_false_eq_true, true_and, false_and, if_false]
        by_cases hc : digitsFrom 0 body ≥ 2 ^ 63
        · rw [if_pos hc]
          simp only [reduceCtorEq, false_iff]
          rintro ⟨a2, a3, a4⟩
          omega
        · rw [if_neg hc, toInt64_of_lt _ (by omega)]
          simp only [Except.ok.injEq]
          constructor
          · intro h
            subst h
            refine ⟨rfl, ?_, ?_⟩ <;> omega
          · rintro ⟨a2, _, _⟩
            exact a2.symm
      · simp only [not_true_eq_false, false_and, if_false, true_and, if_true]
        by_cases hc : digitsFrom 0 body > 2 ^ 63
        · rw [if_pos hc]
          simp only [reduceCtorEq, false_iff]
          rintro ⟨a2, a3, a4⟩
          omega
        · rw [if_neg hc, toInt64_neg _ (by omega)]
          simp only [Except.ok.injEq]
          constructor
          · intro h
            subst h
            refine ⟨rfl, ?_, ?_⟩ <;> omega
          · rintro ⟨a2, _, _⟩
            exact a2.symm

/-- `ParseInt` accepts exactly the integer literals whose value fits 64 signed
bits, and returns that value. -/
theorem ParseInt_eq_ok_iff (s : GoString) (n : Int) :
    ParseInt s = .ok n
      ↔ isIntegerLiteral s = true ∧ n = literalValue s ∧ -2 ^ 63 ≤ n ∧ n < 2 ^ 63 := by
  cases s with
  | nil => simp [ParseInt, isIntegerLiteral]
  | cons c rest =>
    have hpm : byteOf '+' ≠ byteOf '-' := by decide
    by_cases hp : c = byteOf '+'
    · subst hp
      have := ParseInt_body (byteOf '+' :: rest) rest false n
      simpa [ParseInt, isIntegerLiteral, literalValue, hpm] using this
    · by_cases hm : c = byteOf '-'
      · subst hm
        have := ParseInt_body (byteOf '-' :: rest) rest true n
        simpa [ParseInt, isIntegerLiteral, literalValue, hpm.symm] using this
      · have := ParseInt_body (c :: rest) (c :: rest) false n
        simpa [ParseInt, isIntegerLiteral, literalValue, hp, hm] using this

theorem pow_18_lt : (10 : Nat) ^ 18 < 2 ^ 63 := by norm_num

/-- What the fast path of `Atoi` does once the sign is taken off. -/
theorem Atoi_fast_body (s0 body : GoString) (neg : Bool) (n : Int) (hlen : body.length ≤ 18)
    (hne : body ≠ []) :
    (match atoiFastLoop 0 body with
      | none => (Except.error (GoError.numSyntax (str "Atoi") s0) : Except GoError Int)
      | some k => .ok (if neg = true then -k else k)) = .ok n
      ↔ isDigits body = true
        ∧ n = (if neg = true then -(digitsFrom 0 body : Int) else (digitsFrom 0 body : Int))
        ∧ -2 ^ 63 ≤ n ∧ n < 2 ^ 63 := by
  have h0 := atoiFastLoop_eq 0 body
  rw [Nat.cast_zero] at h0
  rw [h0]
  have hemp : body.isEmpty = false := by cases body <;> simp_all
  unfold isDigits
  rw [hemp]
  cases hall : body.all isDigit with
  | false => simp
  | true =>
    have hlt := digitsFrom_lt 0 body hall
    have hpow : 10 ^ body.length ≤ 10 ^ 18 := Nat.pow_le_pow_right (by norm_num) hlen
    have hb : digitsFrom 0 body < 2 ^ 63 := by
      have := pow_18_lt
      omega
    simp only [if_true, Bool.not_false, Bool.and_self, true_and, Except.ok.injEq]
    constructor
    · intro h
      subst h
      refine ⟨rfl, ?_, ?_⟩ <;> cases neg <;> simp <;> omega
    · rintro ⟨a, _, _⟩
      exact a.symm

/-- `Atoi` accepts exactly the integer literals whose value fits 64 signed bits,
and returns that value. -/
theorem Atoi_eq_ok_iff (s : GoString) (n : Int) :
    Atoi s = .ok n
      ↔ isIntegerLiteral s = true ∧ n = literalValue s ∧ -2 ^ 63 ≤ n ∧ n < 2 ^ 63 := by
  unfold Atoi
  simp only
  split
  · rename_i hl
    cases s with
    | nil => simp at hl
    | cons c rest =>
      simp only [List.length_cons] at hl
      have hpm : byteOf '+' ≠ byteOf '-' := by decide
      by_cases hp : c = byteOf '+'
      · subst hp
        cases rest with
        | nil => simp [isIntegerLiteral, isDigits]
        | cons d rest =>
          have := Atoi_fast_body (byteOf '+' :: d :: rest) (d :: rest) false n
            (by simp only [List.length_cons] at hl ⊢; omega) (by simp)
          simpa [isIntegerLiteral, literalValue, hpm] using this
      · by_cases hm : c = byteOf '-'
        · subst hm
          cases rest with
          | nil => simp [isIntegerLiteral, isDigits]
          | cons d rest =>
            have := Atoi_fast_body (byteOf '-' :: d :: rest) (d :: rest) true n
              (by simp only [List.length_cons] at hl ⊢; omega) (by simp)
            simpa [isIntegerLiteral, literalValue, hpm.symm] using this
        · have := Atoi_fast_body (c :: rest) (c :: rest) false n
            (by simp only [List.length_cons]; omega) (by simp)
          simpa [isIntegerLiteral, literalValue, hp, hm] using this
  · exact ParseInt_eq_ok_iff s n

/-- A price is forwarded exactly when it is an integer literal with a value from
0 to 4. -/
theorem priceAccepted_iff (s : GoString) :
    priceAccepted s = true
      ↔ isIntegerLiteral s = true ∧ 0 ≤ literalValue s ∧ literalValue s ≤ 4 := by
  unfold priceAccepted
  cases h : Atoi s with
  | error e =>
    simp only [Bool.and_false, Bool.false_eq_true, false_iff]
    rintro ⟨a1, a2, a3⟩
    have := (Atoi_eq_ok_iff s (literalValue s)).mpr ⟨a1, rfl, by omega, by omega⟩
    rw [h] at this
    exact absurd this (by simp)
  | ok n =>
    obtain ⟨a1, a2, _, _⟩ := (Atoi_eq_ok_iff s n).mp h
    subst a2
    have hne : s.isEmpty = false := by
      cases s with
      | nil => simp [isIntegerLiteral] at a1
      | cons c s => rfl
    simp [hne, a1]

/-- A radius is forwarded exactly when it is an integer literal whose value fits
64 signed bits. -/
theorem radiusAccepted_iff (s : GoString) :
    radiusAccepted s = true
      ↔ isIntegerLiteral s = true ∧ -2 ^ 63 ≤ literalValue s ∧ literalValue s < 2 ^ 63 := by
  unfold radiusAccepted
  cases h : Atoi s with
  | error e =>
    simp only [Bool.and_false, Bool.false_eq_true, false_iff]
    rintro ⟨a1, a2, a3⟩
    have := (Atoi_eq_ok_iff s (literalValue s)).mpr ⟨a1, rfl, a2, a3⟩
    rw [h] at this
    exact absurd this (by simp)
  | ok n =>
    obtain ⟨a1, a2, a3, a4⟩ := (Atoi_eq_ok_iff s n).mp h
    subst a2
    have hne : s.isEmpty = false := by
      cases s with
      | nil => simp [isIntegerLiteral] at a1
      | cons c s => rfl
    simp only [hne, Bool.not_false, Bool.and_self, a1, true_and, true_iff]
    exact ⟨a3, a4⟩

/-- The location is forwarded exactly when it holds one comma. -/
theorem locationAccepted_iff (s : GoString) :
    locationAccepted s = true ↔ s.count (byteOf ',') = 1 := by
  unfold locationAccepted
  rw [Split_length]
  cases s with
  | nil => simp
  | cons c s => simp

theorem createParams_setIf (c : Client) (u : URL) (p : OptionalParams) :
    c.createParams u p =
      if p.Pagetoken ≠ [] then
        ((u.Query.Set (str "key") c.key).Set (str "pagetoken") p.Pagetoken).Encode
      else
        (u.Query.Set (str "key") c.key
          |> setIf (!p.Language.isEmpty) (str "language") p.Language
          |> setIf (!p.Region.isEmpty) (str "region") p.Region
          |> setIf (locationAccepted p.Location) (str "location") p.Location
          |> setIf (priceAccepted p.Maxprice) (str "maxprice") p.Maxprice
          |> setIf (priceAccepted p.Minprice) (str "minprice") p.Minprice
          |> setIf p.Opennow (str "opennow") (str "true")
          |> setIf (radiusAccepted p.Radius) (str "radius") p.Radius
          |> setIf (!p.Type_.isEmpty) (str "type") p.Type_).Encode := by
  unfold Client.createParams
  simp only [setIf_Set_price, setIf_Set_radius, setIf_Set_location, setIf_Set_nonempty,
    setIf_setIf_same]
  split
  · rfl
  · cases p.Opennow <;> rfl

theorem setIf_false (name value : GoString) (q : Values) : setIf false name value q = q := rfl

/-- C2: a `Maxprice` that is not an integer literal, or whose value lies outside
0 to 4, changes nothing: `createParams` returns what it returns with `Maxprice`
empty; the same for `Minprice`; in particular `OptionalParams{}` and
`OptionalParams{Maxprice: "5"}` give the same string. -/
theorem createParams_price_rejected (c : Client) (u : URL) (params : OptionalParams) :
    ((isIntegerLiteral params.Maxprice = false ∨ literalValue params.Maxprice < 0
        ∨ 4 < literalValue params.Maxprice) →
      c.createParams u params = c.createParams u { params with Maxprice := [] })
    ∧ ((isIntegerLiteral params.Minprice = false ∨ literalValue params.Minprice < 0
        ∨ 4 < literalValue params.Minprice) →
      c.createParams u params = c.createParams u { params with Minprice := [] })
    ∧ c.createParams u {} = c.createParams u { Maxprice := str "5" } := by
  have hrej : ∀ s : GoString,
      (isIntegerLiteral s = false ∨ literalValue s < 0 ∨ 4 < literalValue s) →
        priceAccepted s = false := by
    intro s hs
    cases h : priceAccepted s with
    | false => rfl
    | true =>
      obtain ⟨a1, a2, a3⟩ := (priceAccepted_iff s).mp h
      rcases hs with hs | hs | hs
      · rw [a1] at hs
        exact absurd hs (by simp)
      · omega
      · omega
  have hnil : priceAccepted [] = false := by decide
  refine ⟨?_, ?_, ?_⟩
  · intro h
    rw [createParams_setIf, createParams_setIf]
    simp only [hrej _ h, hnil, setIf_false]
  · intro h
    rw [createParams_setIf, createParams_setIf]
    simp only [hrej _ h, hnil, setIf_false]
  · have h5 : priceAccepted (str "5") = false := by decide
    rw [createParams_setIf, createParams_setIf]
    simp only [h5, hnil, setIf_false]

/-- The test cases "wrong maxprice, minprice" of the repository: `maxprice` is no
integer literal, `10` is out of range, and the output is that of no parameters. -/
theorem createParams_price_rejected_witness :
    (Client.mk (str "test-api-key")).createParams ⟨textSearchURL, [], false, []⟩
        { Maxprice := str "maxprice", Minprice := str "10" }
      = str "key=test-api-key" := by
  have h := createParams_price_rejected (Client.mk (str "test-api-key"))
    ⟨textSearchURL, [], false, []⟩ { Maxprice := str "maxprice", Minprice := str "10" }
  rw [h.1 (Or.inl (by decide))]
  have h2 := createParams_price_rejected (Client.mk (str "test-api-key"))
    ⟨textSearchURL, [], false, []⟩ { Maxprice := [], Minprice := str "10" }
  rw [h2.2.1 (Or.inr (Or.inr (by decide)))]
  decide

/-! ## Lemmas: `TextSearch` -/

theorem parseQueryStep_WF (st : Values × Option GoError) (piece : GoString) (h : st.1.WF) :
    (parseQueryStep st piece).1.WF := by
  unfold parseQueryStep
  by_cases h1 : Contains piece (byteOf ';') = true
  · simpa [h1] using h
  · by_cases h2 : piece = []
    · simpa [h1, h2] using h
    · simp only [h1, if_false, h2]
      cases QueryUnescape (Cut piece (byteOf '=')).1 with
      | error e => exact h
      | ok key =>
        cases QueryUnescape (Cut piece (byteOf '=')).2.1 with
        | error e => exact h
        | ok value => exact Add_WF _ _ _ h

theorem foldl_parseQueryStep_WF (pieces : List GoString) (st : Values × Option GoError)
    (h : st.1.WF) : (pieces.foldl parseQueryStep st).1.WF := by
  induction pieces generalizing st with
  | nil => exact h
  | cons piece pieces ih => exact ih _ (parseQueryStep_WF st piece h)

theorem ParseQuery_WF (query : GoString) : (ParseQuery query).1.WF :=
  foldl_parseQueryStep_WF _ _ nil_WF

/-- Whatever the URL, the string `createParams` returns is the encoding of a
well-formed map, so it parses back into that map without an error. -/
theorem createParams_parses (c : Client) (u : URL) (p : OptionalParams) :
    ∃ v : Values, v.WF ∧ c.createParams u p = v.Encode
      ∧ ParseQuery (c.createParams u p) = (v, none) := by
  have w0 : (u.Query.Set (str "key") c.key).WF := Set_WF _ _ _ (ParseQuery_WF _)
  rw [createParams_setIf]
  split
  · exact ⟨_, Set_WF _ _ _ w0, rfl, ParseQuery_Encode _ (Set_WF _ _ _ w0)⟩
  · have w := setIf_WF (!p.Type_.isEmpty) (str "type") p.Type_ _
      (setIf_WF (radiusAccepted p.Radius) (str "radius") p.Radius _
      (setIf_WF p.Opennow (str "opennow") (str "true") _
      (setIf_WF (priceAccepted p.Minprice) (str "minprice") p.Minprice _
      (setIf_WF (priceAccepted p.Maxprice) (str "maxprice") p.Maxprice _
      (setIf_WF (locationAccepted p.Location) (str "location") p.Location _
      (setIf_WF (!p.Region.isEmpty) (str "region") p.Region _
      (setIf_WF (!p.Language.isEmpty) (str "language") p.Language _ w0)))))))
    exact ⟨_, w, rfl, ParseQuery_Encode _ w⟩

/-- With a non-empty query and a base URL that parses, `TextSearch` is the call
of `request` on `requestURL`: the "parse query error" branch is never taken. -/
theorem TextSearch_eq_request {Ctx : Type} (env : Env) (c : Client) (ctx : Ctx)
    (query : GoString) (params : OptionalParams) (u : URL) (hq : query ≠ [])
    (hparse : env.Parse textSearchURL = .ok u) :
    c.TextSearch env ctx query params =
      ⟨match (request env (c.requestURL u query params) (some {})).value with
        | .error err => (none, some err)
        | .ok placeResult => (placeResult, none),
       (request env (c.requestURL u query params) (some {})).calls⟩ := by
  obtain ⟨v, _, _, hv⟩ := createParams_parses c u params
  unfold Client.TextSearch Client.createURL
  simp only [if_neg hq, hparse, hv]
  unfold Client.requestURL Client.requestQuery
  rw [hv]
  cases h : (request env (URL.String { u with RawQuery := (v.Add (str "query") query).Encode })
    (some {})).value <;> simp [h]

/-- C4: without a page token, the string `createParams` returns parses without
an error, and it has a `location` parameter exactly when `Location` holds one
comma, that is when `strings.Split` cuts it into two parts; the value is then
`Location` unchanged, and any other `Location` is left out. -/
theorem createParams_location (c : Client) (u : URL) (params : OptionalParams)
    (hu : u.RawQuery = []) (hp : params.Pagetoken = []) :
    (ParseQuery (c.createParams u params)).2 = none
    ∧ (ParseQuery (c.createParams u params)).1.lookup (str "location")
        = (if params.Location.count (byteOf ',') = 1 then some [params.Location] else none)
    ∧ ((Split params.Location (byteOf ',')).length = 2
        ↔ params.Location.count (byteOf ',') = 1) := by
  rw [ParseQuery_createParams c u hu, lookup_paramValues _ _ hp]
  refine ⟨rfl, ?_, ?_⟩
  · by_cases h : params.Location.count (byteOf ',') = 1
    · have ha := (locationAccepted_iff params.Location).mpr h
      simp +decide [ha, h]
    · have ha : locationAccepted params.Location = false := by
        cases hb : locationAccepted params.Location with
        | false => rfl
        | true => exact absurd ((locationAccepted_iff _).mp hb) h
      simp +decide [ha, h]
  · rw [Split_length]
    omega

/-- The locations `35.6,139.7` (sent), and `tokyo`, `1,2,3`, the empty string
(left out). -/
theorem createParams_location_witness :
    (ParseQuery ((Client.mk (str "k")).createParams textSearchParsed
        { Location := str "35.6,139.7" })).1.lookup (str "location")
      = some [str "35.6,139.7"]
    ∧ (Client.mk (str "k")).createParams textSearchParsed { Location := str "35.6,139.7" }
      = str "key=k&location=35.6%2C139.7"
    ∧ (Client.mk (str "k")).createParams textSearchParsed { Location := str "tokyo" }
      = str "key=k"
    ∧ (Client.mk (str "k")).createParams textSearchParsed { Location := str "1,2,3" }
      = str "key=k" := by
  refine ⟨?_, by decide, by decide, by decide⟩
  rw [(createParams_location (Client.mk (str "k")) textSearchParsed
    { Location := str "35.6,139.7" } rfl rfl).2.1]
  decide

/-- C6 as stated fails: `9223372036854775808` is an integer literal, and the
radius is left out. -/
theorem createParams_radius_counterexample :
    isIntegerLiteral (str "9223372036854775808") = true
    ∧ (ParseQuery ((Client.mk (str "k")).createParams textSearchParsed
        { Radius := str "9223372036854775808" })).1.lookup (str "radius") = none
    ∧ (Client.mk (str "k")).createParams textSearchParsed
        { Radius := str "9223372036854775808" } = str "key=k" := by
  decide

/-- C6, amended: without a page token, the `radius` parameter is set, to
`Radius` unchanged, exactly when `Radius` is an integer literal whose value fits
a 64-bit `int`, whatever its sign; it is left out when `Radius` is empty, is no
integer literal, or is out of that range. -/
theorem createParams_radius (c : Client) (u : URL) (params : OptionalParams)
    (hu : u.RawQuery = []) (hp : params.Pagetoken = []) :
    (ParseQuery (c.createParams u params)).1.lookup (str "radius")
      = (if isIntegerLiteral params.Radius = true ∧ -2 ^ 63 ≤ literalValue params.Radius
            ∧ literalValue params.Radius < 2 ^ 63
          then some [params.Radius] else none) := by
  rw [ParseQuery_createParams c u hu, lookup_paramValues _ _ hp]
  by_cases h : isIntegerLiteral params.Radius = true ∧ -2 ^ 63 ≤ literalValue params.Radius
      ∧ literalValue params.Radius < 2 ^ 63
  · have ha := (radiusAccepted_iff params.Radius).mpr h
    rw [if_pos h]
    simp +decide [ha]
  · have ha : radiusAccepted params.Radius = false := by
      cases hb : radiusAccepted params.Radius with
      | false => rfl
      | true => exact absurd ((radiusAccepted_iff _).mp hb) h
    rw [if_neg h]
    simp +decide [ha]

/-- The radii `-50000` and `0` are sent; `radius` and the empty string are
not. -/
theorem createParams_radius_witness :
    (ParseQuery ((Client.mk (str "k")).createParams textSearchParsed
        { Radius := str "-50000" })).1.lookup (str "radius") = some [str "-50000"]
    ∧ (Client.mk (str "k")).createParams textSearchParsed { Radius := str "0" }
      = str "key=k&radius=0"
    ∧ (Client.mk (str "k")).createParams textSearchParsed { Radius := str "radius" }
      = str "key=k" := by
  refine ⟨?_, by decide, by decide⟩
  rw [createParams_radius (Client.mk (str "k")) textSearchParsed
    { Radius := str "-50000" } rfl rfl]
  decide

/-- C9: without a page token, `language`, `region` and `type` are sent, with the
field as value, exactly when the field is not empty, and `opennow` is sent, with
the value `true`, exactly when `Opennow` is set. -/
theorem createParams_plain_fields (c : Client) (u : URL) (params : OptionalParams)
    (hu : u.RawQuery = []) (hp : params.Pagetoken = []) :
    (ParseQuery (c.createParams u params)).1.lookup (str "language")
        = (if params.Language ≠ [] then some [params.Language] else none)
    ∧ (ParseQuery (c.createParams u params)).1.lookup (str "region")
        = (if params.Region ≠ [] then some [params.Region] else none)
    ∧ (ParseQuery (c.createParams u params)).1.lookup (str "type")
        = (if params.Type_ ≠ [] then some [params.Type_] else none)
    ∧ (ParseQuery (c.createParams u params)).1.lookup (str "opennow")
        = (if params.Opennow = true then some [str "true"] else none) := by
  rw [ParseQuery_createParams c u hu]
  simp only [lookup_paramValues _ _ hp]
  refine ⟨?_, ?_, ?_, ?_⟩
  · cases hl : params.Language <;> simp +decide
  · cases hl : params.Region <;> simp +decide
  · cases hl : params.Type_ <;> simp +decide
  · cases hl : params.Opennow <;> simp +decide

/-- The test case "set all params" of the repository without the prices, and
`Opennow` false. -/
theorem createParams_plain_fields_witness :
    (ParseQuery ((Client.mk (str "test-api-key")).createParams textSearchParsed
        { Language := str "en", Region := str "uk", Type_ := str "cafe" })).1.lookup
          (str "opennow") = none
    ∧ (Client.mk (str "test-api-key")).createParams textSearchParsed
        { Language := str "en", Region := str "uk", Type_ := str "cafe", Opennow := true }
      = str "key=test-api-key&language=en&opennow=true&region=uk&type=cafe" := by
  refine ⟨?_, by decide⟩
  rw [(createParams_plain_fields (Client.mk (str "test-api-key")) textSearchParsed
    { Language := str "en", Region := str "uk", Type_ := str "cafe" } rfl rfl).2.2.2]
  decide

/-- C10: for a non-empty query, when the base URL parses and the round trip for
the request completes with a status code other than 200, `TextSearch` returns a
nil result and the error `http status error. status is <Status>`, whose message
ends with the status text; the body and the JSON decoder play no part. -/
theorem TextSearch_http_status {Ctx : Type} (env : Env) (c : Client) (ctx : Ctx)
    (query : GoString) (params : OptionalParams) (u : URL) (resp : Response)
    (hq : query ≠ []) (hparse : env.Parse textSearchURL = .ok u)
    (hreq : env.NewRequest (str "GET") (c.requestURL u query params) = none)
    (hdo : env.Do ⟨str "GET", c.requestURL u query params⟩ = .ok resp)
    (hst : resp.StatusCode ≠ 200) :
    (c.TextSearch env ctx query params).value
        = (none, some (.errorfS (str "http status error. status is ") resp.Status))
    ∧ (∀ quote, (GoError.errorfS (str "http status error. status is ") resp.Status).Error quote
        = str "http status error. status is " ++ resp.Status)
    ∧ ∀ (scan : GoString → Option JSON) (parseFloat : GoString → Option Float64)
        (body : Except GoError GoString),
        (c.TextSearch
            { env with
              scan := scan
              ParseFloat := parseFloat
              Do := fun r =>
                match env.Do r with
                | .ok x => .ok { x with Body := body }
                | .error e => .error e }
            ctx query params).value
          = (none, some (.errorfS (str "http status error. status is ") resp.Status)) := by
  refine ⟨?_, fun _ => rfl, ?_⟩
  · rw [TextSearch_eq_request env c ctx query params u hq hparse]
    simp only [request, hreq, hdo, if_pos hst]
  · intro scan parseFloat body
    have h := TextSearch_eq_request
      { env with
        scan := scan
        ParseFloat := parseFloat
        Do := fun r =>
          match env.Do r with
          | .ok x => .ok { x with Body := body }
          | .error e => .error e }
      c ctx query params u hq hparse
    rw [h]
    simp only [request, hreq, hdo, if_pos hst]

/-- The status 500 of the spec, for the query of the repository's test. -/
theorem TextSearch_http_status_witness :
    ((Client.mk (str "test-api-key")).TextSearch
        (mockEnv ⟨500, str "500 Internal Server Error", .ok (str "oops")⟩ none) ()
        (str "london beer") { Language := str "en", Region := str "uk" }).value
      = (none, some (.errorfS (str "http status error. status is ")
          (str "500 Internal Server Error"))) :=
  (TextSearch_http_status
    (mockEnv ⟨500, str "500 Internal Server Error", .ok (str "oops")⟩ none)
    (Client.mk (str "test-api-key")) () (str "london beer")
    { Language := str "en", Region := str "uk" } textSearchParsed
    ⟨500, str "500 Internal Server Error", .ok (str "oops")⟩
    (by decide) rfl rfl rfl (by decide)).1

/-- C8, the code at the failing input: a 200 response whose place carries
`"opening_hours": {"open_now": b}` is decoded with `OpenNow = false` for `b`
true as well; the flag is read only under the Go names `OpeningHours` and
`OpenNow` (in any letter case), which the fields have for want of a JSON tag. -/
theorem TextSearch_open_now_not_decoded (b : Bool) :
    openNowFlags ((Client.mk (str "k")).TextSearch
        (mockEnv ⟨200, str "200 OK", .ok (str "body")⟩
          (some (placeWithHours (str "opening_hours") (str "open_now") b)))
        () (str "beer") {}).value = some [false]
    ∧ openNowFlags ((Client.mk (str "k")).TextSearch
        (mockEnv ⟨200, str "200 OK", .ok (str "body")⟩
          (some (placeWithHours (str "openinghours") (str "opennow") b)))
        () (str "beer") {}).value = some [b] := by
  cases b <;> decide

/-! ## Lemmas: the order of the parameters -/

theorem update_keys (key : GoString) (f : List GoString → List GoString) (v : Values)
    (hv : (v.map Prod.fst).Sorted (· < ·)) :
    (Values.update key f v).map Prod.fst
      = (v.map Prod.fst).filter (· < key) ++ [key] ++ (v.map Prod.fst).filter (key < ·) := by
  induction v with
  | nil => simp [Values.update]
  | cons e rest ih =>
    obtain ⟨k, vs⟩ := e
    simp only [List.map_cons, List.sorted_cons] at hv
    by_cases h1 : key = k
    · subst h1
      have hf1 : (rest.map Prod.fst).filter (· < key) = [] := by
        rw [List.filter_eq_nil_iff]
        intro a ha
        simpa using le_of_lt (hv.1 a ha)
      have hf2 : (rest.map Prod.fst).filter (key < ·) = rest.map Prod.fst := by
        rw [List.filter_eq_self]
        intro a ha
        simpa using hv.1 a ha
      simp [Values.update, hf1, hf2]
    · by_cases h2 : key < k
      · have hf1 : (rest.map Prod.fst).filter (· < key) = [] := by
          rw [List.filter_eq_nil_iff]
          intro a ha
          simpa using le_of_lt (lt_trans h2 (hv.1 a ha))
        have hf2 : (rest.map Prod.fst).filter (key < ·) = rest.map Prod.fst := by
          rw [List.filter_eq_self]
          intro a ha
          simpa using lt_trans h2 (hv.1 a ha)
        have h3 : ¬ k < key := not_lt_of_gt h2
        simp [Values.update, h1, h2, h3, hf1, hf2]
      · have h3 : k < key := lt_of_le_of_ne (not_lt.mp h2) (Ne.symm h1)
        simp [Values.update, h1, h2, h3, ih hv.2]

theorem pairs_keys_of_single (v : Values) (h : ∀ e ∈ v, e.2.length = 1) :
    v.pairs.map Prod.fst = v.map Prod.fst := by
  induction v with
  | nil => rfl
  | cons e rest ih =>
    obtain ⟨k, vs⟩ := e
    have hk := h (k, vs) (List.mem_cons_self _ _)
    simp only at hk
    obtain ⟨x, rfl⟩ := List.length_eq_one.mp hk
    simp [Values.pairs, ih (fun e he => h e (List.mem_cons_of_mem _ he))]

theorem paramNames_joinPairs (p : GoString × GoString) (ps : List (GoString × GoString)) :
    paramNames (joinPairs (p :: ps)) = (p :: ps).map (fun q => QueryEscape q.1) := by
  unfold paramNames
  rw [Split_joinPairs, List.map_map]
  apply List.map_congr_left
  intro q _
  simp only [Function.comp, encodePair]
  rw [Cut_append _ _ _ (fun h => (QueryEscape_clean q.1 _ h).2.1 rfl)]

/-- The parameter names in the text of `Encode` are the keys of the map, in its
order, when every key has one value and is written unescaped. -/
theorem paramNames_Encode (v : Values) (hs : (v.map Prod.fst).Sorted (· < ·))
    (hsingle : ∀ e ∈ v, e.2.length = 1) (hesc : ∀ e ∈ v, QueryEscape e.1 = e.1)
    (hne : v ≠ []) : paramNames v.Encode = v.map Prod.fst := by
  rw [Encode_eq_joinPairs v hs]
  have hk := pairs_keys_of_single v hsingle
  have hmem : ∀ q ∈ v.pairs, QueryEscape q.1 = q.1 := by
    intro q hq
    have : q.1 ∈ v.pairs.map Prod.fst := List.mem_map_of_mem _ hq
    rw [hk, List.mem_map] at this
    obtain ⟨e, he, heq⟩ := this
    rw [← heq]
    exact hesc e he
  cases hp : v.pairs with
  | nil =>
    rw [hp] at hk
    cases v with
    | nil => exact absurd rfl hne
    | cons e rest => simp at hk
  | cons p ps =>
    rw [paramNames_joinPairs, ← hk, hp]
    apply List.map_congr_left
    intro q hq
    exact hmem q (hp ▸ hq)

theorem optionNames_unescaped : ∀ k ∈ optionNames, QueryEscape k = k := by decide

theorem query_unescaped : QueryEscape (str "query") = str "query" := by decide

theorem query_not_option : str "query" ∉ optionNames := by decide

/-- Every parameter `createParams` sets has one of the known names and one
value. -/
theorem paramValues_entries (key : GoString) (p : OptionalParams) :
    ∀ e ∈ paramValues key p, e.1 ∈ optionNames ∧ e.2.length = 1 := by
  by_cases hp : p.Pagetoken = []
  · intro e he
    obtain ⟨k, vs⟩ := e
    have h := lookup_of_mem _ (paramValues_WF key p).1 _ he
    simp only [lookup_paramValues _ _ hp] at h
    split_ifs at h with h1 h2 h3 h4 h5 h6 h7 h8 h9
    · simp only [Option.some.injEq] at h; subst h; rw [h1.2]; exact ⟨by dsimp only; decide, rfl⟩
    · simp only [Option.some.injEq] at h; subst h; rw [h2.2]; exact ⟨by dsimp only; decide, rfl⟩
    · simp only [Option.some.injEq] at h; subst h; rw [h3.2]; exact ⟨by dsimp only; decide, rfl⟩
    · simp only [Option.some.injEq] at h; subst h; rw [h4.2]; exact ⟨by dsimp only; decide, rfl⟩
    · simp only [Option.some.injEq] at h; subst h; rw [h5.2]; exact ⟨by dsimp only; decide, rfl⟩
    · simp only [Option.some.injEq] at h; subst h; rw [h6.2]; exact ⟨by dsimp only; decide, rfl⟩
    · simp only [Option.some.injEq] at h; subst h; rw [h7.2]; exact ⟨by dsimp only; decide, rfl⟩
    · simp only [Option.some.injEq] at h; subst h; rw [h8.2]; exact ⟨by dsimp only; decide, rfl⟩
    · simp only [Option.some.injEq] at h; subst h; rw [h9]; exact ⟨by dsimp only; decide, rfl⟩
  · rw [paramValues_pagetoken key p hp]
    intro e he
    simp only [List.mem_cons, List.mem_singleton, List.not_mem_nil, or_false] at he
    rcases he with he | he <;> subst he <;> exact ⟨by dsimp only; decide, rfl⟩

theorem paramValues_ne_nil (key : GoString) (p : OptionalParams) : paramValues key p ≠ [] := by
  intro h
  have h1 : (paramValues key p).lookup (str "key") = none := by rw [h]; rfl
  by_cases hp : p.Pagetoken = []
  · rw [lookup_paramValues _ _ hp] at h1
    revert h1
    simp +decide
  · rw [paramValues_pagetoken key p hp] at h
    exact absurd h (by simp)

/-- The parameter names in the string `createParams` returns are the keys of
`paramValues`. -/
theorem paramNames_createParams (c : Client) (u : URL) (hu : u.RawQuery = [])
    (p : OptionalParams) :
    paramNames (c.createParams u p) = (paramValues c.key p).map Prod.fst := by
  rw [createParams_eq_Encode c u hu]
  exact paramNames_Encode _ (paramValues_WF _ _).1
    (fun e he => (paramValues_entries _ _ e he).2)
    (fun e he => optionNames_unescaped _ (paramValues_entries _ _ e he).1)
    (paramValues_ne_nil _ _)

theorem lookup_mem (v : Values) (k : GoString) (vs : List GoString)
    (h : v.lookup k = some vs) : (k, vs) ∈ v := by
  induction v with
  | nil => simp [Values.lookup] at h
  | cons e rest ih =>
    obtain ⟨k', ws⟩ := e
    simp only [Values.lookup] at h
    split at h
    · rename_i hk
      simp only [Option.some.injEq] at h
      subst hk h
      exact List.mem_cons_self _ _
    · exact List.mem_cons_of_mem _ (ih h)

theorem lookup_query_paramValues (key : GoString) (p : OptionalParams) :
    (paramValues key p).lookup (str "query") = none := by
  cases h : (paramValues key p).lookup (str "query") with
  | none => rfl
  | some vs =>
    exact absurd (paramValues_entries key p _ (lookup_mem _ _ _ h)).1 query_not_option

/-- The parameter names in the query string of the request are the keys of
`paramValues` with `query` added. -/
theorem paramNames_requestQuery_keys (c : Client) (u : URL) (hu : u.RawQuery = [])
    (query : GoString) (p : OptionalParams) :
    paramNames (c.requestQuery u query p)
      = ((paramValues c.key p).Add (str "query") query).map Prod.fst := by
  have hw := paramValues_WF c.key p
  unfold Client.requestQuery
  rw [ParseQuery_createParams c u hu]
  have hent : ∀ e ∈ (paramValues c.key p).Add (str "query") query,
      (e.1 = str "query" ∨ e.1 ∈ optionNames) ∧ e.2.length = 1 := by
    intro e he
    have h := lookup_of_mem _ (Add_WF _ (str "query") query hw).1 _ he
    rw [lookup_Add _ hw, lookup_query_paramValues] at h
    split at h
    · rename_i hk
      simp only [Option.getD_none, List.nil_append, Option.some.injEq] at h
      exact ⟨Or.inl hk, by rw [← h]; rfl⟩
    · have := paramValues_entries c.key p _ (lookup_mem _ _ _ h)
      exact ⟨Or.inr this.1, this.2⟩
  apply paramNames_Encode _ (Add_WF _ _ _ hw).1 (fun e he => (hent e he).2)
  · intro e he
    rcases (hent e he).1 with h | h
    · rw [h]; exact query_unescaped
    · exact optionNames_unescaped _ h
  · intro h
    have : ((paramValues c.key p).Add (str "query") query).lookup (str "query") = none := by
      rw [h]; rfl
    rw [lookup_Add _ hw] at this
    simp at this

/-- The parameter names in the query string of the request: those of
`createParams` with `query` put in its alphabetical place. -/
theorem paramNames_requestQuery (c : Client) (u : URL) (hu : u.RawQuery = [])
    (query : GoString) (p : OptionalParams) :
    paramNames (c.requestQuery u query p)
      = (paramNames (c.createParams u p)).filter (· < str "query") ++ [str "query"]
        ++ (paramNames (c.createParams u p)).filter (str "query" < ·) := by
  rw [paramNames_requestQuery_keys c u hu, paramNames_createParams c u hu]
  exact update_keys _ _ _ (paramValues_WF c.key p).1

/-- The one request of `TextSearch`, when the base URL parses and the request
can be built: a `GET` of `requestURL`. -/
theorem TextSearch_calls {Ctx : Type} (env : Env) (c : Client) (ctx : Ctx)
    (query : GoString) (params : OptionalParams) (u : URL) (hq : query ≠ [])
    (hparse : env.Parse textSearchURL = .ok u)
    (hreq : env.NewRequest (str "GET") (c.requestURL u query params) = none) :
    (c.TextSearch env ctx query params).calls
      = [⟨str "GET", c.requestURL u query params⟩] := by
  rw [TextSearch_eq_request env c ctx query params u hq hparse]
  simp only [request, hreq]
  cases env.Do ⟨str "GET", c.requestURL u query params⟩ with
  | error e => rfl
  | ok resp =>
    by_cases hst : resp.StatusCode ≠ 200
    · simp only [if_pos hst]
    · simp only [if_neg hst]
      cases resp.Body <;> rfl

theorem requestQuery_ne_nil (c : Client) (u : URL) (query : GoString) (p : OptionalParams) :
    c.requestQuery u query p ≠ [] := by
  obtain ⟨v, hv, _, hp⟩ := createParams_parses c u p
  unfold Client.requestQuery
  rw [hp]
  intro h
  have h2 := ParseQuery_Encode _ (Add_WF v (str "query") query hv)
  rw [h, ParseQuery_nil] at h2
  have h3 : (v.Add (str "query") query).lookup (str "query") = none := by
    rw [← (Prod.mk.inj h2).1]; rfl
  rw [lookup_Add _ hv] at h3
  simp at h3

/-- The text of `requestURL`: the query string follows a `?`. -/
theorem requestURL_eq (c : Client) (u : URL) (query : GoString) (p : OptionalParams) :
    c.requestURL u query p
      = u.beforeQuery ++ byteOf '?' :: c.requestQuery u query p ++ u.afterQuery := by
  unfold Client.requestURL URL.String
  simp [requestQuery_ne_nil c u query p]

/-- C7: on a URL without a query of its own, the parameter names in the string
`createParams` returns, and in the query string of the request `TextSearch`
sends, are in strictly ascending order, so that no name occurs twice. -/
theorem paramNames_ascending (c : Client) (u : URL) (params : OptionalParams)
    (hu : u.RawQuery = []) :
    (paramNames (c.createParams u params)).Sorted (· < ·)
    ∧ (paramNames (c.createParams u params)).Nodup
    ∧ (∀ query, (paramNames (c.requestQuery u query params)).Sorted (· < ·)
        ∧ (paramNames (c.requestQuery u query params)).Nodup)
    ∧ ∀ (Ctx : Type) (env : Env) (ctx : Ctx) (query : GoString),
        query ≠ [] → env.Parse textSearchURL = .ok u →
        env.NewRequest (str "GET") (c.requestURL u query params) = none →
        (c.TextSearch env ctx query params).calls
          = [⟨str "GET",
              u.beforeQuery ++ byteOf '?' :: c.requestQuery u query params ++ u.afterQuery⟩] := by
  have h1 : (paramNames (c.createParams u params)).Sorted (· < ·) := by
    rw [paramNames_createParams c u hu]
    exact (paramValues_WF _ _).1
  have h2 : ∀ query, (paramNames (c.requestQuery u query params)).Sorted (· < ·) := by
    intro query
    rw [paramNames_requestQuery_keys c u hu]
    exact (Add_WF _ _ _ (paramValues_WF _ _)).1
  refine ⟨h1, h1.nodup, fun query => ⟨h2 query, (h2 query).nodup⟩, ?_⟩
  intro Ctx env ctx query hq hparse hreq
  rw [TextSearch_calls env c ctx query params u hq hparse hreq, requestURL_eq]

/-- The test case "set all params" of the repository: the string, and its
names in ascending order. -/
theorem paramNames_ascending_witness :
    (Client.mk (str "test-api-key")).createParams textSearchParsed
        { Language := str "en", Region := str "uk", Opennow := true, Radius := str "50000",
          Type_ := str "cafe", Maxprice := str "4", Minprice := str "1" }
      = str ("key=test-api-key&language=en&maxprice=4&minprice=1&opennow=true"
          ++ "&radius=50000&region=uk&type=cafe")
    ∧ (paramNames ((Client.mk (str "test-api-key")).createParams textSearchParsed
        { Language := str "en", Region := str "uk", Opennow := true, Radius := str "50000",
          Type_ := str "cafe", Maxprice := str "4", Minprice := str "1" })).Sorted (· < ·) :=
  ⟨by decide,
   (paramNames_ascending (Client.mk (str "test-api-key")) textSearchParsed
      { Language := str "en", Region := str "uk", Opennow := true, Radius := str "50000",
        Type_ := str "cafe", Maxprice := str "4", Minprice := str "1" } rfl).1⟩

/-- C5 as stated fails: with `Region` set, the query string of the request is
`key=k&query=beer&region=uk`, where `region` comes last, after `query`. -/
theorem query_last_counterexample :
    (Client.mk (str "k")).requestQuery textSearchParsed (str "beer") { Region := str "uk" }
      = str "key=k&query=beer&region=uk"
    ∧ (paramNames ((Client.mk (str "k")).requestQuery textSearchParsed (str "beer")
        { Region := str "uk" })).getLast? = some (str "region")
    ∧ ((Client.mk (str "k")).TextSearch (mockEnv ⟨200, str "200 OK", .ok []⟩ none) ()
        (str "beer") { Region := str "uk" }).calls
      = [⟨str "GET", str ("https://maps.googleapis.com/maps/api/place/textsearch/json"
          ++ "?key=k&query=beer&region=uk")⟩] := by
  decide

theorem after_query_names :
    ∀ n ∈ optionNames, str "query" < n ↔ (n = str "radius" ∨ n = str "region" ∨ n = str "type") := by
  decide

/-- C5, amended: on a URL without a query of its own, `query` is in the query
string of the request once, with the query text as its value; the names before
it are those of `createParams` that sort before `query`, the names after it
those that sort after it; so `query` is the last parameter exactly when none of
`radius`, `region`, `type` is sent. -/
theorem query_position (c : Client) (u : URL) (query : GoString) (params : OptionalParams)
    (hu : u.RawQuery = []) :
    (ParseQuery (c.requestQuery u query params)).2 = none
    ∧ (ParseQuery (c.requestQuery u query params)).1.lookup (str "query") = some [query]
    ∧ paramNames (c.requestQuery u query params)
        = (paramNames (c.createParams u params)).filter (· < str "query") ++ [str "query"]
          ++ (paramNames (c.createParams u params)).filter (str "query" < ·)
    ∧ ((paramNames (c.requestQuery u query params)).getLast? = some (str "query")
        ↔ (str "radius" ∉ paramNames (c.createParams u params)
          ∧ str "region" ∉ paramNames (c.createParams u params)
          ∧ str "type" ∉ paramNames (c.createParams u params))) := by
  have hw := paramValues_WF c.key params
  have hparse : ParseQuery (c.requestQuery u query params)
      = ((paramValues c.key params).Add (str "query") query, none) := by
    unfold Client.requestQuery
    rw [ParseQuery_createParams c u hu, ParseQuery_Encode _ (Add_WF _ _ _ hw)]
  have hnames := paramNames_requestQuery c u hu query params
  refine ⟨by rw [hparse], ?_, hnames, ?_⟩
  · rw [hparse]
    simp [lookup_Add _ hw, lookup_query_paramValues]
  · have hsub : ∀ n ∈ paramNames (c.createParams u params), n ∈ optionNames := by
      intro n hn
      rw [paramNames_createParams c u hu, List.mem_map] at hn
      obtain ⟨e, he, rfl⟩ := hn
      exact (paramValues_entries _ _ e he).1
    rw [hnames]
    generalize paramNames (c.createParams u params) = names at hsub
    cases hB : names.filter (str "query" < ·) with
    | nil =>
      have hl : (names.filter (· < str "query") ++ [str "query"] ++ []).getLast?
          = some (str "query") := by simp
      rw [hl]
      simp only [true_iff]
      rw [List.filter_eq_nil_iff] at hB
      have key : ∀ n ∈ names, ¬ (n = str "radius" ∨ n = str "region" ∨ n = str "type") := by
        intro n hn h
        have := (after_query_names n (hsub n hn)).mpr h
        exact hB n hn (by simpa using this)
      refine ⟨fun h => key _ h (Or.inl rfl), fun h => key _ h (Or.inr (Or.inl rfl)),
        fun h => key _ h (Or.inr (Or.inr rfl))⟩
    | cons b bs =>
      have hb : b ∈ names.filter (str "query" < ·) := by rw [hB]; exact List.mem_cons_self _ _
      have hlast : ∃ x, (b :: bs).getLast? = some x ∧ x ∈ names ∧ str "query" < x := by
        have hne : (b :: bs) ≠ [] := by simp
        refine ⟨(b :: bs).getLast hne, List.getLast?_eq_getLast _ hne, ?_⟩
        have hm : (b :: bs).getLast hne ∈ names.filter (str "query" < ·) := by
          rw [hB]; exact List.getLast_mem hne
        rw [List.mem_filter] at hm
        exact ⟨hm.1, by simpa using hm.2⟩
      obtain ⟨x, hx1, hx2, hx3⟩ := hlast
      have hx4 := (after_query_names x (hsub x hx2)).mp hx3
      constructor
      · intro h
        rw [List.getLast?_append_of_ne_nil _ (by simp), hx1] at h
        simp only [Option.some.injEq] at h
        exact absurd (h ▸ hx3) (lt_irrefl _)
      · rintro ⟨h1, h2, h3⟩
        rcases hx4 with h | h | h
        · exact absurd (h ▸ hx2) h1
        · exact absurd (h ▸ hx2) h2
        · exact absurd (h ▸ hx2) h3

/-- The query of the repository's test: `query` is last for the parameters of
the test, and it is followed by `type` when `Type` is set. -/
theorem query_position_witness :
    paramNames ((Client.mk (str "test-api-key")).requestQuery textSearchParsed
        (str "london beer") { Language := str "en", Type_ := str "bar" })
      = [str "key", str "language", str "query", str "type"]
    ∧ (Client.mk (str "test-api-key")).requestQuery textSearchParsed
        (str "london beer") { Language := str "en", Region := str "uk" }
      = str "key=test-api-key&language=en&query=london+beer&region=uk" := by
  refine ⟨?_, by decide⟩
  rw [(query_position (Client.mk (str "test-api-key")) textSearchParsed (str "london beer")
    { Language := str "en", Type_ := str "bar" } rfl).2.2.1]
  decide

/-! ## The key, the repeated block, the prices -/

theorem lookup_key_paramValues (key : GoString) (p : OptionalParams) :
    (paramValues key p).lookup (str "key") = some [key] := by
  by_cases hp : p.Pagetoken = []
  · rw [lookup_paramValues _ _ hp]
    simp +decide
  · rw [paramValues_pagetoken key p hp]
    simp +decide [Values.lookup]

theorem paramValues_zero (key : GoString) : paramValues key {} = [(str "key", [key])] := by
  simp +decide [paramValues, setIf, Values.Set, Values.update, priceAccepted, radiusAccepted,
    locationAccepted]

/-- C11: on a URL without a query of its own, the string `createParams` returns
has the `key` parameter, once (no name occurs twice), with the API key as its
value, whatever the other parameters; for `OptionalParams{}` the string is `key=` followed by the escaped
key. -/
theorem createParams_key (c : Client) (u : URL) (params : OptionalParams)
    (hu : u.RawQuery = []) :
    (ParseQuery (c.createParams u params)).2 = none
    ∧ (ParseQuery (c.createParams u params)).1.lookup (str "key") = some [c.key]
    ∧ str "key" ∈ paramNames (c.createParams u params)
    ∧ (paramNames (c.createParams u params)).Nodup
    ∧ c.createParams u {} = str "key=" ++ QueryEscape c.key := by
  refine ⟨?_, ?_, ?_, ?_, ?_⟩
  · rw [ParseQuery_createParams c u hu]
  · rw [ParseQuery_createParams c u hu, lookup_key_paramValues]
  · rw [paramNames_createParams c u hu]
    exact List.mem_map_of_mem Prod.fst (lookup_mem _ _ _ (lookup_key_paramValues c.key params))
  · have hs : (paramNames (c.createParams u params)).Sorted (· < ·) := by
      rw [paramNames_createParams c u hu]
      exact (paramValues_WF _ _).1
    exact hs.nodup
  · rw [createParams_eq_Encode c u hu, Encode_eq_joinPairs _ (paramValues_WF _ _).1,
      paramValues_zero]
    have h1 : QueryEscape (str "key") = str "key" := by decide
    have h3 : str "key=" = str "key" ++ [byteOf '='] := by decide
    simp [Values.pairs, joinPairs, encodePair, h1, h3]

/-- The test case "no optional parameters" of the repository, and a key that
needs escaping. -/
theorem createParams_key_witness :
    (Client.mk (str "test-api-key")).createParams textSearchParsed {} = str "key=test-api-key"
    ∧ (Client.mk (str "a&b c")).createParams textSearchParsed {} = str "key=a%26b+c" := by
  refine ⟨?_, ?_⟩
  · rw [(createParams_key (Client.mk (str "test-api-key")) textSearchParsed {} rfl).2.2.2.2]
    decide
  · decide

theorem createParamsSingle_setIf (c : Client) (u : URL) (p : OptionalParams) :
    c.createParamsSingle u p =
      if p.Pagetoken ≠ [] then
        ((u.Query.Set (str "key") c.key).Set (str "pagetoken") p.Pagetoken).Encode
      else
        (u.Query.Set (str "key") c.key
          |> setIf (!p.Language.isEmpty) (str "language") p.Language
          |> setIf (!p.Region.isEmpty) (str "region") p.Region
          |> setIf (locationAccepted p.Location) (str "location") p.Location
          |> setIf (priceAccepted p.Maxprice) (str "maxprice") p.Maxprice
          |> setIf (priceAccepted p.Minprice) (str "minprice") p.Minprice
          |> setIf p.Opennow (str "opennow") (str "true")
          |> setIf (radiusAccepted p.Radius) (str "radius") p.Radius
          |> setIf (!p.Type_.isEmpty) (str "type") p.Type_).Encode := by
  unfold Client.createParamsSingle
  simp only [setIf_Set_price, setIf_Set_radius, setIf_Set_location, setIf_Set_nonempty]
  split
  · rfl
  · cases p.Opennow <;> rfl

/-- C14: the second `Minprice` block of `createParams` is redundant: for every
client, URL and `OptionalParams`, `createParams` returns the string that the
variant without that block returns. -/
theorem createParams_eq_createParamsSingle (c : Client) (u : URL) (params : OptionalParams) :
    c.createParams u params = c.createParamsSingle u params := by
  rw [createParams_setIf, createParamsSingle_setIf]

theorem Atoi_nil_error : ∀ n, Atoi [] ≠ .ok n := by
  intro n h
  have := (Atoi_eq_ok_iff [] n).mp h
  simp [isIntegerLiteral] at this

theorem priceAccepted_of_Atoi (s : GoString) (n : Int) (h : Atoi s = .ok n) (h0 : 0 ≤ n)
    (h4 : n ≤ 4) : priceAccepted s = true := by
  unfold priceAccepted
  cases s with
  | nil => exact absurd h (Atoi_nil_error n)
  | cons c s => simp [h, h0, h4]

/-- C16: without a page token, a `Maxprice` that `Atoi` parses to a value from 0
to 4 is sent as `maxprice` with the original text as its value, whatever its
spelling and whatever `Minprice` is; the same for `Minprice` and `minprice`;
each of the two parameters depends on its own field only. -/
theorem createParams_price_forwarded (c : Client) (u : URL) (params : OptionalParams)
    (hu : u.RawQuery = []) (hp : params.Pagetoken = []) :
    (∀ n, Atoi params.Maxprice = .ok n → 0 ≤ n → n ≤ 4 →
        (ParseQuery (c.createParams u params)).1.lookup (str "maxprice")
          = some [params.Maxprice])
    ∧ (∀ n, Atoi params.Minprice = .ok n → 0 ≤ n → n ≤ 4 →
        (ParseQuery (c.createParams u params)).1.lookup (str "minprice")
          = some [params.Minprice])
    ∧ (ParseQuery (c.createParams u params)).1.lookup (str "maxprice")
        = (if priceAccepted params.Maxprice = true then some [params.Maxprice] else none)
    ∧ (ParseQuery (c.createParams u params)).1.lookup (str "minprice")
        = (if priceAccepted params.Minprice = true then some [params.Minprice] else none) := by
  rw [ParseQuery_createParams c u hu]
  simp only [lookup_paramValues _ _ hp]
  have hmax : (if priceAccepted params.Maxprice = true then some [params.Maxprice] else none)
      = (paramValues c.key params).lookup (str "maxprice") := by
    rw [lookup_paramValues _ _ hp]
    cases priceAccepted params.Maxprice <;> simp +decide
  have hmin : (if priceAccepted params.Minprice = true then some [params.Minprice] else none)
      = (paramValues c.key params).lookup (str "minprice") := by
    rw [lookup_paramValues _ _ hp]
    cases priceAccepted params.Minprice <;> simp +decide
  simp only [lookup_paramValues _ _ hp] at hmax hmin
  refine ⟨?_, ?_, hmax.symm, hmin.symm⟩
  · intro n h h0 h4
    rw [← hmax, priceAccepted_of_Atoi _ n h h0 h4]
    rfl
  · intro n h h0 h4
    rw [← hmin, priceAccepted_of_Atoi _ n h h0 h4]
    rfl

/-- The spellings `+4`, `004` and `-0` are sent as they are, and `Minprice` 4 goes
out together with `Maxprice` 0. -/
theorem createParams_price_forwarded_witness :
    (ParseQuery ((Client.mk (str "k")).createParams textSearchParsed
        { Maxprice := str "+4", Minprice := str "004" })).1.lookup (str "maxprice")
      = some [str "+4"]
    ∧ (Client.mk (str "k")).createParams textSearchParsed
        { Maxprice := str "+4", Minprice := str "004" } = str "key=k&maxprice=%2B4&minprice=004"
    ∧ (Client.mk (str "k")).createParams textSearchParsed { Maxprice := str "-0" }
      = str "key=k&maxprice=-0"
    ∧ (Client.mk (str "k")).createParams textSearchParsed
        { Maxprice := str "0", Minprice := str "4" } = str "key=k&maxprice=0&minprice=4" := by
  refine ⟨?_, by decide, by decide, by decide⟩
  exact (createParams_price_forwarded (Client.mk (str "k")) textSearchParsed
    { Maxprice := str "+4", Minprice := str "004" } rfl rfl).1 4 rfl (by decide)
    (by decide)

/-! ## Parsing back what was encoded -/

/-- C15: on a URL without a query of its own, the string `createParams` returns
parses without an error into exactly the parameters that were set, byte for
byte; the request's parameters are those with `query` added, the query text
unchanged; and `TextSearch` with a non-empty query always reaches `request`: the
"parse query error" branch is never taken. -/
theorem createParams_parse_roundtrip (c : Client) (u : URL) (params : OptionalParams)
    (hu : u.RawQuery = []) :
    c.createParams u params = (paramValues c.key params).Encode
    ∧ ParseQuery (c.createParams u params) = (paramValues c.key params, none)
    ∧ (∀ value : GoString, QueryUnescape (QueryEscape value) = .ok value)
    ∧ (∀ query : GoString,
        ParseQuery (c.requestQuery u query params)
            = ((paramValues c.key params).Add (str "query") query, none)
        ∧ (ParseQuery (c.requestQuery u query params)).1.lookup (str "query") = some [query]
        ∧ ∀ k, k ≠ str "query" →
            (ParseQuery (c.requestQuery u query params)).1.lookup k
              = (ParseQuery (c.createParams u params)).1.lookup k)
    ∧ ∀ (Ctx : Type) (env : Env) (ctx : Ctx) (query : GoString),
        query ≠ [] → env.Parse textSearchURL = .ok u →
        c.TextSearch env ctx query params
          = ⟨match (request env (c.requestURL u query params) (some {})).value with
              | .error err => (none, some err)
              | .ok placeResult => (placeResult, none),
             (request env (c.requestURL u query params) (some {})).calls⟩ := by
  have hw := paramValues_WF c.key params
  have hparse : ∀ query : GoString, ParseQuery (c.requestQuery u query params)
      = ((paramValues c.key params).Add (str "query") query, none) := by
    intro query
    unfold Client.requestQuery
    rw [ParseQuery_createParams c u hu, ParseQuery_Encode _ (Add_WF _ _ _ hw)]
  refine ⟨createParams_eq_Encode c u hu params, ParseQuery_createParams c u hu params,
    QueryUnescape_QueryEscape, ?_, ?_⟩
  · intro query
    refine ⟨hparse query, ?_, ?_⟩
    · rw [hparse]
      simp [lookup_Add _ hw, lookup_query_paramValues]
    · intro k hk
      rw [hparse, ParseQuery_createParams c u hu]
      simp [lookup_Add _ hw, hk]
  · intro Ctx env ctx query hq hp
    exact TextSearch_eq_request env c ctx query params u hq hp

/-- A key, a page token and a query with `&`, `=`, `%`, `+`, a space and the
non-ASCII bytes `C3 A9`: the request's query string, and the values read back
from it. -/
theorem createParams_parse_roundtrip_witness :
    (Client.mk (str "a&b=c%+ d" ++ [195, 169])).requestQuery textSearchParsed
        (str "x y&z=1%+" ++ [195, 169]) { Pagetoken := str "t&=%+ " }
      = str "key=a%26b%3Dc%25%2B+d%C3%A9&pagetoken=t%26%3D%25%2B+&query=x+y%26z%3D1%25%2B%C3%A9"
    ∧ (ParseQuery ((Client.mk (str "a&b=c%+ d" ++ [195, 169])).requestQuery textSearchParsed
        (str "x y&z=1%+" ++ [195, 169]) { Pagetoken := str "t&=%+ " })).1
      = [(str "key", [str "a&b=c%+ d" ++ [195, 169]]), (str "pagetoken", [str "t&=%+ "]),
         (str "query", [str "x y&z=1%+" ++ [195, 169]])] := by
  refine ⟨by decide, ?_⟩
  rw [((createParams_parse_roundtrip (Client.mk (str "a&b=c%+ d" ++ [195, 169]))
    textSearchParsed { Pagetoken := str "t&=%+ " } rfl).2.2.2.1
      (str "x y&z=1%+" ++ [195, 169])).1]
  decide

/-! ## The body of a 200 response -/

/-- What `TextSearch` returns for a 200 response whose body can be read: the
pointer `json.Unmarshal` leaves, and a nil error. -/
theorem TextSearch_status_ok {Ctx : Type} (env : Env) (c : Client) (ctx : Ctx)
    (query : GoString) (params : OptionalParams) (u : URL) (resp : Response) (body : GoString)
    (hq : query ≠ []) (hparse : env.Parse textSearchURL = .ok u)
    (hreq : env.NewRequest (str "GET") (c.requestURL u query params) = none)
    (hdo : env.Do ⟨str "GET", c.requestURL u query params⟩ = .ok resp)
    (hst : resp.StatusCode = 200) (hbody : resp.Body = .ok body) :
    (c.TextSearch env ctx query params).value
      = (Unmarshal env.scan env.ParseFloat body (some {}), none) := by
  rw [TextSearch_eq_request env c ctx query params u hq hparse]
  simp only [request, hreq, hdo, hst, hbody, ne_eq, not_true_eq_false, if_false]

/-- A body that is not valid JSON gives the zero `PlaceResult` and no error; a
body that is valid JSON other than `null` gives a non-nil result and no
error. -/
theorem Unmarshal_not_null (scan : GoString → Option JSON)
    (parseFloat : GoString → Option Float64) (body : GoString) (r : PlaceResult) :
    (scan body = none → Unmarshal scan parseFloat body (some r) = some r)
    ∧ (∀ j, scan body = some j → j ≠ .null →
        Unmarshal scan parseFloat body (some r) = some (decodePlaceResult parseFloat r j)) := by
  constructor
  · intro h
    simp [Unmarshal, h]
  · intro j h hj
    unfold Unmarshal
    rw [h]
    cases j <;> simp_all

/-- C13, the code at the failing input: for a 200 response whose body is the
JSON text `null`, `json.Unmarshal(bytes, &response)` sets the pointer `response`
to nil, and `TextSearch` returns a nil result together with a nil error. -/
theorem TextSearch_null_body (c : Client) (params : OptionalParams) (body : GoString) :
    (c.TextSearch (mockEnv ⟨200, str "200 OK", .ok body⟩ (some .null)) ()
        (str "beer") params).value = (none, none) := by
  rw [TextSearch_status_ok (mockEnv ⟨200, str "200 OK", .ok body⟩ (some .null)) c ()
    (str "beer") params textSearchParsed ⟨200, str "200 OK", .ok body⟩ body (by decide) rfl
    rfl rfl rfl rfl]
  rfl

/-! ## Lemmas: decoding by the schema -/

theorem member_cons_eq (name : GoString) (v : JSON) (rest : List (GoString × JSON)) :
    member ((name, v) :: rest) name = some v := by
  simp [member]

theorem member_cons_ne (k : GoString) (v : JSON) (rest : List (GoString × JSON))
    (name : GoString) (h : k ≠ name) : member ((k, v) :: rest) name = member rest name := by
  simp [member, h]

theorem member_none_of_not_mem (ms : List (GoString × JSON)) (name : GoString)
    (h : name ∉ ms.map Prod.fst) : member ms name = none := by
  induction ms with
  | nil => rfl
  | cons m rest ih =>
    simp only [List.map_cons, List.mem_cons, not_or] at h
    rw [member_cons_ne m.1 m.2 rest name (Ne.symm h.1)]
    exact ih h.2

theorem decodeStruct_cons {α : Type} (names : List GoString) (field : Nat → α → JSON → α)
    (a : α) (m : GoString × JSON) (rest : List (GoString × JSON)) :
    decodeStruct names field a (.object (m :: rest))
      = decodeStruct names field
          (match fieldIndex names m.1 with
            | some i => field i a m.2
            | none => a) (.object rest) := rfl

/-- The members of an object are decoded one after the other; when a
description `spec` of the result by member names follows each step, it
describes the result. -/
theorem decodeStruct_eq_of_step {α : Type} (names : List GoString)
    (field : Nat → α → JSON → α) (spec : α → List (GoString × JSON) → α)
    (ok : GoString × JSON → Prop) (h0 : ∀ a, spec a [] = a)
    (hstep : ∀ a m rest, ok m → m.1 ∉ rest.map Prod.fst →
      spec a (m :: rest)
        = spec (match fieldIndex names m.1 with
            | some i => field i a m.2
            | none => a) rest)
    (ms : List (GoString × JSON)) (a : α) (hn : (ms.map Prod.fst).Nodup)
    (hok : ∀ m ∈ ms, ok m) :
    decodeStruct names field a (.object ms) = spec a ms := by
  induction ms generalizing a with
  | nil => rw [h0]; rfl
  | cons m rest ih =>
    simp only [List.map_cons, List.nodup_cons] at hn
    rw [decodeStruct_cons, hstep a m rest (hok m (List.mem_cons_self _ _)) hn.1]
    exact ih _ hn.2 (fun x hx => hok x (List.mem_cons_of_mem _ hx))

theorem namesOK_iff (names documented : List GoString) (ms : List (GoString × JSON)) :
    namesOK names documented ms = true
      ↔ (ms.map Prod.fst).Nodup
        ∧ ∀ m ∈ ms, m.1 ∈ documented ∨ fieldIndex names m.1 = none := by
  simp [namesOK]

theorem plusCodeMembers_known :
    ∀ d ∈ plusCodeMembers, fieldIndex [str "compound_code", str "global_code"] d ≠ none := by
  decide

theorem decodePlusCode_eq_schema (cur : PlusCode) (j : JSON) (h : plusCodeSchema j = true) :
    decodePlusCode cur j = schemaPlusCode cur j := by
  cases j with
  | object ms =>
    obtain ⟨hn, hm⟩ := (namesOK_iff _ _ _).mp h
    refine decodeStruct_eq_of_step _ _ (fun a ms => schemaPlusCode a (.object ms))
      (fun m => m.1 ∈ plusCodeMembers ∨
        fieldIndex [str "compound_code", str "global_code"] m.1 = none) ?_ ?_ ms cur hn hm
    · intro a
      rfl
    · intro a m rest hm hnot
      obtain ⟨k, v⟩ := m
      simp only at hm hnot
      have h1 := member_none_of_not_mem rest _ hnot
      rcases hm with hm | hm
      · simp only [plusCodeMembers, List.mem_cons, List.mem_singleton, List.not_mem_nil,
          or_false] at hm
        rcases hm with hm | hm <;> subst hm
        · have hf : fieldIndex [str "compound_code", str "global_code"] (str "compound_code")
              = some 0 := by decide
          have h2 := member_cons_ne (str "compound_code") v rest (str "global_code")
            (by decide)
          simp only [hf, schemaPlusCode, member_cons_eq, h1, h2, readMember]
        · have hf : fieldIndex [str "compound_code", str "global_code"] (str "global_code")
              = some 1 := by decide
          have h2 := member_cons_ne (str "global_code") v rest (str "compound_code")
            (by decide)
          simp only [hf, schemaPlusCode, member_cons_eq, h1, h2, readMember]
      · have hne : ∀ d ∈ plusCodeMembers, k ≠ d := by
          intro d hd heq
          subst heq
          exact plusCodeMembers_known k hd hm
        have h2 := member_cons_ne k v rest _ (hne (str "compound_code") (by decide))
        have h3 := member_cons_ne k v rest _ (hne (str "global_code") (by decide))
        simp only [hm, schemaPlusCode, h2, h3]
  | _ => rfl

theorem member_cons_doc (k : GoString) (v : JSON) (rest : List (GoString × JSON))
    (name : GoString) :
    member ((k, v) :: rest) name = if k = name then some v else member rest name := by
  simp [member]

theorem decodeSlice_congr {α : Type} (f g : JSON → α) (cur : Option (List α)) (v : JSON)
    (h : ∀ elems, v = .array elems → ∀ e ∈ elems, f e = g e) :
    decodeSlice f cur v = decodeSlice g cur v := by
  cases v with
  | array elems =>
    simp only [decodeSlice, Option.some.injEq]
    exact List.map_congr_left (h elems rfl)
  | _ => rfl

theorem photoMembers_known :
    ∀ d ∈ photoMembers, fieldIndex [str "height", str "html_attributions", str "photo_reference", str "width"] d ≠ none := by
  decide

theorem decodePhoto_eq_schema (cur : Photo) (j : JSON)
    (h : photoSchema j = true) : decodePhoto cur j = schemaPhoto cur j := by
  cases j with
  | object ms =>
    simp only [photoSchema, Bool.and_eq_true, List.all_eq_true, Bool.or_eq_true, bne_iff_ne,
      ne_eq, namesOK_iff] at h
    obtain ⟨hn, hm⟩ := h
    refine decodeStruct_eq_of_step _ _ (fun a ms => schemaPhoto a (.object ms))
      (fun m => (m.1 ∈ photoMembers ∨ fieldIndex [str "height", str "html_attributions", str "photo_reference", str "width"] m.1 = none))
      ?_ ?_ ms cur hn ?_
    · intro a
      rfl
    · intro a m rest hok hnot
      obtain ⟨k, v⟩ := m
      simp only at hok hnot
      have h1 := member_none_of_not_mem rest _ hnot
      have hm := hok
      rcases hm with hm | hm
      · simp only [photoMembers, List.mem_cons, List.mem_singleton, List.not_mem_nil, or_false] at hm
        rcases hm with hm | hm | hm | hm
        · subst hm
          have hf : fieldIndex [str "height", str "html_attributions", str "photo_reference", str "width"] (str "height") = some 0 := by decide
          simp +decide only [hf, schemaPhoto, member_cons_doc, h1, readMember, if_true, if_false]
        · subst hm
          have hf : fieldIndex [str "height", str "html_attributions", str "photo_reference", str "width"] (str "html_attributions") = some 1 := by decide
          simp +decide only [hf, schemaPhoto, member_cons_doc, h1, readMember, if_true, if_false]
        · subst hm
          have hf : fieldIndex [str "height", str "html_attributions", str "photo_reference", str "width"] (str "photo_reference") = some 2 := by decide
          simp +decide only [hf, schemaPhoto, member_cons_doc, h1, readMember, if_true, if_false]
        · subst hm
          have hf : fieldIndex [str "height", str "html_attributions", str "photo_reference", str "width"] (str "width") = some 3 := by decide
          simp +decide only [hf, schemaPhoto, member_cons_doc, h1, readMember, if_true, if_false]
      · have hne : ∀ d ∈ photoMembers, k ≠ d := by
          intro d hd heq
          subst heq
          exact photoMembers_known k hd hm
        have e0 := member_cons_ne k v rest _ (hne (str "height") (by decide))
        have e1 := member_cons_ne k v rest _ (hne (str "html_attributions") (by decide))
        have e2 := member_cons_ne k v rest _ (hne (str "photo_reference") (by decide))
        have e3 := member_cons_ne k v rest _ (hne (str "width") (by decide))
        simp only [hm, schemaPhoto, e0, e1, e2, e3]
    · intro m hmem
      exact hm m hmem
  | _ => rfl

theorem locationMembers_known :
    ∀ d ∈ locationMembers, fieldIndex [str "lat", str "lng"] d ≠ none := by
  decide

theorem decodeLocation_eq_schema (parseFloat : GoString → Option Float64) (cur : Location) (j : JSON)
    (h : locationSchema j = true) : decodeLocation parseFloat cur j = schemaLocation parseFloat cur j := by
  cases j with
  | object ms =>
    simp only [locationSchema, Bool.and_eq_true, List.all_eq_true, Bool.or_eq_true, bne_iff_ne,
      ne_eq, namesOK_iff] at h
    obtain ⟨hn, hm⟩ := h
    refine decodeStruct_eq_of_step _ _ (fun a ms => schemaLocation parseFloat a (.object ms))
      (fun m => (m.1 ∈ locationMembers ∨ fieldIndex [str "lat", str "lng"] m.1 = none))
      ?_ ?_ ms cur hn ?_
    · intro a
      rfl
    · intro a m rest hok hnot
      obtain ⟨k, v⟩ := m
      simp only at hok hnot
      have h1 := member_none_of_not_mem rest _ hnot
      have hm := hok
      rcases hm with hm | hm
      · simp only [locationMembers, List.mem_cons, List.mem_singleton, List.not_mem_nil, or_false] at hm
        rcases hm with hm | hm
        · subst hm
          have hf : fieldIndex [str "lat", str "lng"] (str "lat") = some 0 := by decide
          simp +decide only [hf, schemaLocation, member_cons_doc, h1, readMember, if_true, if_false]
        · subst hm
          have hf : fieldIndex [str "lat", str "lng"] (str "lng") = some 1 := by decide
          simp +decide only [hf, schemaLocation, member_cons_doc, h1, readMember, if_true, if_false]
      · have hne : ∀ d ∈ locationMembers, k ≠ d := by
          intro d hd heq
          subst heq
          exact locationMembers_known k hd hm
        have e0 := member_cons_ne k v rest _ (hne (str "lat") (by decide))
        have e1 := member_cons_ne k v rest _ (hne (str "lng") (by decide))
        simp only [hm, schemaLocation, e0, e1]
    · intro m hmem
      exact hm m hmem
  | _ => rfl

theorem geometryMembers_known :
    ∀ d ∈ geometryMembers, fieldIndex [str "Location"] d ≠ none := by
  decide

theorem decodeGeometry_eq_schema (parseFloat : GoString → Option Float64) (cur : Geometry) (j : JSON)
    (h : geometrySchema j = true) : decodeGeometry parseFloat cur j = schemaGeometry parseFloat cur j := by
  cases j with
  | object ms =>
    simp only [geometrySchema, Bool.and_eq_true, List.all_eq_true, Bool.or_eq_true, bne_iff_ne,
      ne_eq, namesOK_iff] at h
    obtain ⟨⟨hn, hm⟩, hnest⟩ := h
    refine decodeStruct_eq_of_step _ _ (fun a ms => schemaGeometry parseFloat a (.object ms))
      (fun m => (m.1 ∈ geometryMembers ∨ fieldIndex [str "Location"] m.1 = none)
        ∧ (m.1 ≠ str "location" ∨ locationSchema m.2 = true))
      ?_ ?_ ms cur hn ?_
    · intro a
      rfl
    · intro a m rest hok hnot
      obtain ⟨k, v⟩ := m
      simp only at hok hnot
      have h1 := member_none_of_not_mem rest _ hnot
      obtain ⟨hm, hn0⟩ := hok
      rcases hm with hm | hm
      · simp only [geometryMembers, List.mem_cons, List.mem_singleton, List.not_mem_nil, or_false] at hm
        rcases hm with hm
        · subst hm
          have hf : fieldIndex [str "Location"] (str "location") = some 0 := by decide
          have hs : locationSchema v = true := by
            rcases hn0 with hx | hx
            · exact absurd rfl hx
            · exact hx
          have he := decodeLocation_eq_schema parseFloat a.Location v hs
          simp +decide only [hf, schemaGeometry, member_cons_doc, h1, readMember, if_true, if_false, he]
      · have hne : ∀ d ∈ geometryMembers, k ≠ d := by
          intro d hd heq
          subst heq
          exact geometryMembers_known k hd hm
        have e0 := member_cons_ne k v rest _ (hne (str "location") (by decide))
        simp only [hm, schemaGeometry, e0]
    · intro m hmem
      have hx := hnest m hmem
      exact ⟨hm m hmem, hx⟩
  | _ => rfl

theorem placeMembers_known :
    ∀ d ∈ placeMembers, fieldIndex placeFieldNames d ≠ none := by
  decide

theorem decodePlace_eq_schema (parseFloat : GoString → Option Float64) (cur : Place) (j : JSON)
    (h : placeSchema j = true) : decodePlace parseFloat cur j = schemaPlace parseFloat cur j := by
  cases j with
  | object ms =>
    simp only [placeSchema, Bool.and_eq_true, List.all_eq_true, Bool.or_eq_true, bne_iff_ne,
      ne_eq, namesOK_iff] at h
    obtain ⟨⟨hn, hm⟩, hnest⟩ := h
    refine decodeStruct_eq_of_step _ _ (fun a ms => schemaPlace parseFloat a (.object ms))
      (fun m => (m.1 ∈ placeMembers ∨ fieldIndex placeFieldNames m.1 = none)
        ∧ (m.1 ≠ str "plus_code" ∨ plusCodeSchema m.2 = true)
        ∧ (m.1 ≠ str "geometry" ∨ geometrySchema m.2 = true)
        ∧ (m.1 ≠ str "photos" ∨ photosSchema m.2 = true))
      ?_ ?_ ms cur hn ?_
    · intro a
      rfl
    · intro a m rest hok hnot
      obtain ⟨k, v⟩ := m
      simp only at hok hnot
      have h1 := member_none_of_not_mem rest _ hnot
      obtain ⟨hm, hn0, hn1, hn2⟩ := hok
      rcases hm with hm | hm
      · simp only [placeMembers, List.mem_cons, List.mem_singleton, List.not_mem_nil, or_false] at hm
        rcases hm with hm | hm | hm | hm | hm | hm | hm | hm | hm | hm | hm | hm | hm | hm | hm
        · subst hm
          have hf : fieldIndex placeFieldNames (str "formatted_address") = some 0 := by decide
          simp +decide only [hf, schemaPlace, member_cons_doc, h1, readMember, if_true, if_false]
        · subst hm
          have hf : fieldIndex placeFieldNames (str "icon") = some 1 := by decide
          simp +decide only [hf, schemaPlace, member_cons_doc, h1, readMember, if_true, if_false]
        · subst hm
          have hf : fieldIndex placeFieldNames (str "icon_background_color") = some 2 := by decide
          simp +decide only [hf, schemaPlace, member_cons_doc, h1, readMember, if_true, if_false]
        · subst hm
          have hf : fieldIndex placeFieldNames (str "icon_mask_base_uri") = some 3 := by decide
          simp +decide only [hf, schemaPlace, member_cons_doc, h1, readMember, if_true, if_false]
        · subst hm
          have hf : fieldIndex placeFieldNames (str "name") = some 4 := by decide
          simp +decide only [hf, schemaPlace, member_cons_doc, h1, readMember, if_true, if_false]
        · subst hm
          have hf : fieldIndex placeFieldNames (str "place_id") = some 5 := by decide
          simp +decide only [hf, schemaPlace, member_cons_doc, h1, readMember, if_true, if_false]
        · subst hm
          have hf : fieldIndex placeFieldNames (str "plus_code") = some 6 := by decide
          have hs : plusCodeSchema v = true := by
            rcases hn0 with hx | hx
            · exact absurd rfl hx
            · exact hx
          have he := decodePlusCode_eq_schema a.PlusCode v hs
          simp +decide only [hf, schemaPlace, member_cons_doc, h1, readMember, if_true, if_false, he]
        · subst hm
          have hf : fieldIndex placeFieldNames (str "price_level") = some 7 := by decide
          simp +decide only [hf, schemaPlace, member_cons_doc, h1, readMember, if_true, if_false]
        · subst hm
          have hf : fieldIndex placeFieldNames (str "rating") = some 8 := by decide
          simp +decide only [hf, schemaPlace, member_cons_doc, h1, readMember, if_true, if_false]
        · subst hm
          have hf : fieldIndex placeFieldNames (str "reference") = some 9 := by decide
          simp +decide only [hf, schemaPlace, member_cons_doc, h1, readMember, if_true, if_false]
        · subst hm
          have hf : fieldIndex placeFieldNames (str "types") = some 10 := by decide
          simp +decide only [hf, schemaPlace, member_cons_doc, h1, readMember, if_true, if_false]
        · subst hm
          have hf : fieldIndex placeFieldNames (str "user_ratings_total") = some 11 := by decide
          simp +decide only [hf, schemaPlace, member_cons_doc, h1, readMember, if_true, if_false]
        · subst hm
          have hf : fieldIndex placeFieldNames (str "business_status") = some 12 := by decide
          simp +decide only [hf, schemaPlace, member_cons_doc, h1, readMember, if_true, if_false]
        · subst hm
          have hf : fieldIndex placeFieldNames (str "geometry") = some 13 := by decide
          have hs : geometrySchema v = true := by
            rcases hn1 with hx | hx
            · exact absurd rfl hx
            · exact hx
          have he := decodeGeometry_eq_schema parseFloat a.Geometry v hs
          simp +decide only [hf, schemaPlace, member_cons_doc, h1, readMember, if_true, if_false, he]
        · subst hm
          have hf : fieldIndex placeFieldNames (str "photos") = some 14 := by decide
          have hs : photosSchema v = true := by
            rcases hn2 with hx | hx
            · exact absurd rfl hx
            · exact hx
          have he := decodeSlice_congr (decodePhoto {}) (schemaPhoto {}) a.Photos v
            (fun elems hv e hmem => decodePhoto_eq_schema {} e
              (by subst hv; exact List.all_eq_true.mp hs e hmem))
          simp +decide only [hf, schemaPlace, member_cons_doc, h1, readMember, if_true, if_false, he]
      · have hne : ∀ d ∈ placeMembers, k ≠ d := by
          intro d hd heq
          subst heq
          exact placeMembers_known k hd hm
        have e0 := member_cons_ne k v rest _ (hne (str "formatted_address") (by decide))
        have e1 := member_cons_ne k v rest _ (hne (str "icon") (by decide))
        have e2 := member_cons_ne k v rest _ (hne (str "icon_background_color") (by decide))
        have e3 := member_cons_ne k v rest _ (hne (str "icon_mask_base_uri") (by decide))
        have e4 := member_cons_ne k v rest _ (hne (str "name") (by decide))
        have e5 := member_cons_ne k v rest _ (hne (str "place_id") (by decide))
        have e6 := member_cons_ne k v rest _ (hne (str "plus_code") (by decide))
        have e7 := member_cons_ne k v rest _ (hne (str "price_level") (by decide))
        have e8 := member_cons_ne k v rest _ (hne (str "rating") (by decide))
        have e9 := member_cons_ne k v rest _ (hne (str "reference") (by decide))
        have e10 := member_cons_ne k v rest _ (hne (str "types") (by decide))
        have e11 := member_cons_ne k v rest _ (hne (str "user_ratings_total") (by decide))
        have e12 := member_cons_ne k v rest _ (hne (str "business_status") (by decide))
        have e13 := member_cons_ne k v rest _ (hne (str "geometry") (by decide))
        have e14 := member_cons_ne k v rest _ (hne (str "photos") (by decide))
        simp only [hm, schemaPlace, e0, e1, e2, e3, e4, e5, e6, e7, e8, e9, e10, e11, e12, e13, e14]
    · intro m hmem
      have hx := hnest m hmem
      exact ⟨hm m hmem, hx.1.1, hx.1.2, hx.2⟩
  | _ => rfl

theorem resultMembers_known :
    ∀ d ∈ resultMembers, fieldIndex [str "html_attributions", str "status", str "results"] d ≠ none := by
  decide

theorem decodePlaceResult_eq_schema (parseFloat : GoString → Option Float64) (cur : PlaceResult) (j : JSON)
    (h : responseSchema j = true) : decodePlaceResult parseFloat cur j = schemaPlaceResult parseFloat cur j := by
  cases j with
  | object ms =>
    simp only [responseSchema, Bool.and_eq_true, List.all_eq_true, Bool.or_eq_true, bne_iff_ne,
      ne_eq, namesOK_iff] at h
    obtain ⟨⟨hn, hm⟩, hnest⟩ := h
    refine decodeStruct_eq_of_step _ _ (fun a ms => schemaPlaceResult parseFloat a (.object ms))
      (fun m => (m.1 ∈ resultMembers ∨ fieldIndex [str "html_attributions", str "status", str "results"] m.1 = none)
        ∧ (m.1 ≠ str "results" ∨ resultsSchema m.2 = true))
      ?_ ?_ ms cur hn ?_
    · intro a
      rfl
    · intro a m rest hok hnot
      obtain ⟨k, v⟩ := m
      simp only at hok hnot
      have h1 := member_none_of_not_mem rest _ hnot
      obtain ⟨hm, hn0⟩ := hok
      rcases hm with hm | hm
      · simp only [resultMembers, List.mem_cons, List.mem_singleton, List.not_mem_nil, or_false] at hm
        rcases hm with hm | hm | hm
        · subst hm
          have hf : fieldIndex [str "html_attributions", str "status", str "results"] (str "html_attributions") = some 0 := by decide
          simp +decide only [hf, schemaPlaceResult, member_cons_doc, h1, readMember, if_true, if_false]
        · subst hm
          have hf : fieldIndex [str "html_attributions", str "status", str "results"] (str "status") = some 1 := by decide
          simp +decide only [hf, schemaPlaceResult, member_cons_doc, h1, readMember, if_true, if_false]
        · subst hm
          have hf : fieldIndex [str "html_attributions", str "status", str "results"] (str "results") = some 2 := by decide
          have hs : resultsSchema v = true := by
            rcases hn0 with hx | hx
            · exact absurd rfl hx
            · exact hx
          have he := decodeSlice_congr (decodePlace parseFloat {}) (schemaPlace parseFloat {}) a.Results v
            (fun elems hv e hmem => decodePlace_eq_schema parseFloat {} e
              (by subst hv; exact List.all_eq_true.mp hs e hmem))
          simp +decide only [hf, schemaPlaceResult, member_cons_doc, h1, readMember, if_true, if_false, he]
      · have hne : ∀ d ∈ resultMembers, k ≠ d := by
          intro d hd heq
          subst heq
          exact resultMembers_known k hd hm
        have e0 := member_cons_ne k v rest _ (hne (str "html_attributions") (by decide))
        have e1 := member_cons_ne k v rest _ (hne (str "status") (by decide))
        have e2 := member_cons_ne k v rest _ (hne (str "results") (by decide))
        simp only [hm, schemaPlaceResult, e0, e1, e2]
    · intro m hmem
      have hx := hnest m hmem
      exact ⟨hm m hmem, hx⟩
  | _ => rfl

/-! ## The decoded response -/

theorem decodeInt64_literal (cur : Int) (lit : GoString) (h : isIntegerLiteral lit = true)
    (h1 : -2 ^ 63 ≤ literalValue lit) (h2 : literalValue lit < 2 ^ 63) :
    decodeInt64 cur (.number lit) = literalValue lit := by
  have := (ParseInt_eq_ok_iff lit (literalValue lit)).mpr ⟨h, rfl, h1, h2⟩
  simp [decodeInt64, this]

/-- C12: for a non-empty query and a 200 response whose body scans to a JSON
object of the documented schema, `TextSearch` returns a nil error and the
`PlaceResult` of the schema: `Status` is the `status` string, `HtmlAttributions`
the `html_attributions` array, `Results` the places of `results`, as many and in
the same order; a place has the strings, integers and floats of its members, the
location of `geometry.location`, the photos of `photos`; members that select no
field, `geometry.viewport` and `opening_hours` among them, are passed over. -/
theorem TextSearch_decodes_response {Ctx : Type} (env : Env) (c : Client) (ctx : Ctx)
    (query : GoString) (params : OptionalParams) (u : URL) (resp : Response) (body : GoString)
    (ms : List (GoString × JSON))
    (hq : query ≠ []) (hparse : env.Parse textSearchURL = .ok u)
    (hreq : env.NewRequest (str "GET") (c.requestURL u query params) = none)
    (hdo : env.Do ⟨str "GET", c.requestURL u query params⟩ = .ok resp)
    (hst : resp.StatusCode = 200) (hbody : resp.Body = .ok body)
    (hscan : env.scan body = some (.object ms))
    (hschema : responseSchema (.object ms) = true) :
    ∃ r : PlaceResult,
      (c.TextSearch env ctx query params).value = (some r, none)
      ∧ r = schemaPlaceResult env.ParseFloat {} (.object ms)
      ∧ (∀ s, member ms (str "status") = some (.string s) → r.Status = s)
      ∧ (∀ strs : List GoString,
          member ms (str "html_attributions") = some (.array (strs.map .string)) →
          r.HtmlAttributions = some strs)
      ∧ (∀ elems, member ms (str "results") = some (.array elems) →
          r.Results = some (elems.map (schemaPlace env.ParseFloat {}))
          ∧ ∀ places, r.Results = some places → places.length = elems.length)
      ∧ ∀ pms : List (GoString × JSON),
          (∀ s, member pms (str "name") = some (.string s) →
            (schemaPlace env.ParseFloat {} (.object pms)).Name = s)
          ∧ (∀ lit, member pms (str "price_level") = some (.number lit) →
              isIntegerLiteral lit = true → -2 ^ 63 ≤ literalValue lit →
              literalValue lit < 2 ^ 63 →
              (schemaPlace env.ParseFloat {} (.object pms)).PriceLevel = literalValue lit)
          ∧ (∀ g l lit x, member pms (str "geometry") = some (.object g) →
              member g (str "location") = some (.object l) →
              member l (str "lat") = some (.number lit) → env.ParseFloat lit = some x →
              (schemaPlace env.ParseFloat {} (.object pms)).Geometry.Location.Lat = x)
          ∧ (∀ photos, member pms (str "photos") = some (.array photos) →
              (schemaPlace env.ParseFloat {} (.object pms)).Photos
                = some (photos.map (schemaPhoto {})))
          ∧ (schemaPlace env.ParseFloat {} (.object pms)).OpeningHours.OpenNow = false := by
  refine ⟨schemaPlaceResult env.ParseFloat {} (.object ms), ?_, rfl, ?_, ?_, ?_, ?_⟩
  · rw [TextSearch_status_ok env c ctx query params u resp body hq hparse hreq hdo hst hbody]
    have hu := (Unmarshal_not_null env.scan env.ParseFloat body {}).2 _ hscan (by simp)
    rw [hu, decodePlaceResult_eq_schema env.ParseFloat {} _ hschema]
  · intro s h
    simp [schemaPlaceResult, h, readMember, decodeString]
  · intro strs h
    simp only [schemaPlaceResult, h, readMember, decodeSlice, List.map_map, Option.some.injEq]
    have hid : (decodeString [] ∘ JSON.string) = id := rfl
    rw [hid, List.map_id]
  · intro elems h
    have hr : (schemaPlaceResult env.ParseFloat {} (.object ms)).Results
        = some (elems.map (schemaPlace env.ParseFloat {})) := by
      simp [schemaPlaceResult, h, readMember, decodeSlice]
    refine ⟨hr, ?_⟩
    intro places hp
    rw [hr] at hp
    simp only [Option.some.injEq] at hp
    rw [← hp, List.length_map]
  · intro pms
    refine ⟨?_, ?_, ?_, ?_, rfl⟩
    · intro s h
      simp [schemaPlace, h, readMember, decodeString]
    · intro lit h h1 h2 h3
      simp only [schemaPlace, h, readMember]
      exact decodeInt64_literal _ lit h1 h2 h3
    · intro g l lit x h1 h2 h3 h4
      simp [schemaPlace, schemaGeometry, schemaLocation, h1, h2, h3, h4, readMember,
        decodeFloat64]
    · intro photos h
      simp [schemaPlace, h, readMember, decodeSlice]

/-- The test `TestClient_TextSearch` of the repository: the query `london beer`
with language `en` and region `uk` against the sample body gives the `want` of
the test. -/
theorem TextSearch_decodes_response_witness :
    ((Client.mk (str "test-api-key")).TextSearch sampleEnv () (str "london beer")
        { Language := str "en", Region := str "uk" }).value = (some sampleWant, none) := by
  obtain ⟨r, h1, h2, _⟩ := TextSearch_decodes_response sampleEnv (Client.mk (str "test-api-key"))
    () (str "london beer") { Language := str "en", Region := str "uk" } textSearchParsed
    ⟨200, str "200 OK", .ok sampleBody⟩ sampleBody sampleMembers (by decide) rfl rfl rfl rfl
    rfl (by simp [sampleEnv, sampleJSON]) (by decide)
  rw [h1, h2]
  rfl

end Places
